import Mathlib

/-!
# Collision shapes of `mater`: polygon and segment geometry

A shallow embedding of `collision/polygonShape.go` and `collision/segmentShape.go`.

Conventions of the embedding.

* `float64` is idealised as a linearly ordered field `K` (exact arithmetic, no NaN, no
  rounding).  The two infinities that `update` uses as seeds of its running bounding box
  live in `Ext K`, the scalar type of `AABB`.
* A Go slice is a `Slice`: the visible elements together with the rest of the backing
  array up to the capacity, so that `s[:n]` is translated as it is executed.  The slices
  that the constructors allocate never share storage; the argument of `SetVerts` may share
  the array behind the receiver's `Verts` (`VertsArg.shared`).
* A run-time panic (index or slice bound out of range) is the result `none`.
* The argument `verts Vertices` of `SetVerts` is a `VertsArg`: `nil`, a slice over an
  array of its own, or a slice over the array behind `poly.Verts`, whose elements change
  as `SetVerts` writes `poly.Verts[i]`.  `NewPolygon` takes `none` for `nil` and `some l`
  for a non-nil slice with elements `l`.
* Lines written through `log.Printf` are returned next to the result.
* The packages `vect`, `transform` and `aabb` and the method `Vertices.ValidatePolygon`
  are not part of the sources at hand.  `Perp`, the square root behind `Normalize` and
  `ValidatePolygon` are parameters; the other operations are modelled from the
  specification.
-/

namespace Collision

/-! ## Loops and slices -/

/-- The Go loop `for i := lo; i < hi; i++ { s = body(i, s) }`; `none` is a panic in the body. -/
def forLoop {σ : Type} (body : Nat → σ → Option σ) (lo hi : Nat) (s : σ) : Option σ :=
  (List.range' lo (hi - lo)).foldlM (fun s i => body i s) s

/-- A Go slice: its `len` visible elements and the remainder of its backing array
(`cap - len` further elements). -/
structure Slice (α : Type) where
  elems : List α
  spare : List α
deriving DecidableEq

namespace Slice

variable {α : Type}

/-- Go `len(s)`. -/
def len (s : Slice α) : Nat := s.elems.length

/-- Go `cap(s)`. -/
def cap (s : Slice α) : Nat := s.elems.length + s.spare.length

/-- The slice held by a zero-valued field: `nil`, of length and capacity 0. -/
def empty : Slice α := ⟨[], []⟩

/-- Go `make([]T, n)`: `n` zero values, capacity `n`. -/
def make (zero : α) (n : Nat) : Slice α := ⟨List.replicate n zero, []⟩

/-- Go `s[i]` as a read; `none` when `i` is out of range. -/
def index (s : Slice α) (i : Nat) : Option α := s.elems[i]?

/-- Go `s[i] = v`; `none` when `i` is out of range. -/
def store (s : Slice α) (i : Nat) (v : α) : Option (Slice α) :=
  if i < s.elems.length then some ⟨s.elems.set i v, s.spare⟩ else none

/-- Go `s[i].f = x`, an assignment to one field of the element: `g` rewrites that field. -/
def storeField (s : Slice α) (i : Nat) (g : α → α) : Option (Slice α) :=
  match s.index i with
  | none => none
  | some a => s.store i (g a)

/-- Go `s[:n]`, legal up to the capacity; `none` when `n > cap(s)`. -/
def upTo (s : Slice α) (n : Nat) : Option (Slice α) :=
  if n ≤ s.elems.length + s.spare.length then
    some ⟨(s.elems ++ s.spare).take n, (s.elems ++ s.spare).drop n⟩
  else none

end Slice

/-! ## Vectors, transforms, bounding boxes (external packages) -/

/-- Modelled from the spec: `vect.Vect` of the external package `vect`, an ordered pair
`(x, y)`. -/
structure Vect (α : Type) where
  X : α
  Y : α
deriving DecidableEq

/-- A `float64` that may be infinite: the scalar of a bounding box. -/
inductive Ext (K : Type) where
  | ninf : Ext K
  | fin (x : K) : Ext K
  | pinf : Ext K
deriving DecidableEq

section Ops

variable {K : Type} [LinearOrderedField K]

/-- Go `math.Min` on possibly infinite values. -/
def Ext.min : Ext K → Ext K → Ext K
  | .ninf, _ => .ninf
  | _, .ninf => .ninf
  | .pinf, y => y
  | x, .pinf => x
  | .fin a, .fin b => .fin (Min.min a b)

/-- Go `math.Max` on possibly infinite values. -/
def Ext.max : Ext K → Ext K → Ext K
  | .pinf, _ => .pinf
  | _, .pinf => .pinf
  | .ninf, y => y
  | x, .ninf => x
  | .fin a, .fin b => .fin (Max.max a b)

/-- Modelled from the spec: `vect.Add` of the external package `vect`, vector addition. -/
def Add (a b : Vect K) : Vect K := ⟨a.X + b.X, a.Y + b.Y⟩

/-- Modelled from the spec: `vect.Sub` of the external package `vect`, vector subtraction. -/
def Sub (a b : Vect K) : Vect K := ⟨a.X - b.X, a.Y - b.Y⟩

/-- Modelled from the spec: `vect.Dot` of the external package `vect`, the dot product. -/
def Dot (a b : Vect K) : K := a.X * b.X + a.Y * b.Y

/-- The operations of the external package `vect` that are kept as parameters: `Perp`,
whose orientation only the containment example of the specification fixes, and the square
root used for the length of a vector. -/
structure VectOps (K : Type) where
  Perp : Vect K → Vect K
  Sqrt : K → K

/-- Modelled from the spec: `vect.Normalize` of the external package `vect`, the vector
scaled by the inverse of its Euclidean length. -/
def Normalize (ops : VectOps K) (v : Vect K) : Vect K :=
  let f := 1 / ops.Sqrt (Dot v v)
  ⟨v.X * f, v.Y * f⟩

/-- Modelled from the spec: the rotation part of `transform.Transform`, held as cosine
and sine. -/
structure Rotation (K : Type) where
  C : K
  S : K

/-- Modelled from the spec: `transform.Transform` of the external package `transform`,
a position and a rotation. -/
structure Transform (K : Type) where
  Position : Vect K
  Rotation : Rotation K

/-- Modelled from the spec: `Transform.RotateVect`, "rotate vector (direction only)". -/
def Transform.RotateVect (xf : Transform K) (v : Vect K) : Vect K :=
  ⟨xf.Rotation.C * v.X - xf.Rotation.S * v.Y, xf.Rotation.S * v.X + xf.Rotation.C * v.Y⟩

/-- Modelled from the spec: `Transform.TransformVect`, "rotate + translate". -/
def Transform.TransformVect (xf : Transform K) (v : Vect K) : Vect K :=
  Add xf.Position (xf.RotateVect v)

/-- Modelled from the spec: the identity transform, zero position and zero rotation. -/
def Transform.identity : Transform K := ⟨⟨0, 0⟩, ⟨1, 0⟩⟩

/-- Modelled from the spec: `aabb.AABB` of the external package `aabb`, a lower and an
upper corner. -/
structure AABB (K : Type) where
  Lower : Vect (Ext K)
  Upper : Vect (Ext K)

end Ops

/-! ## Shapes -/

/-- Go `PolygonAxis` (polygonShape.go, lines 11-15). -/
structure PolygonAxis (K : Type) where
  N : Vect K
  D : K
deriving DecidableEq

/-- Go `PolygonShape` (polygonShape.go, lines 17-29). -/
structure PolygonShape (K : Type) where
  Verts : Slice (Vect K)
  TVerts : Slice (Vect K)
  Axes : Slice (PolygonAxis K)
  TAxes : Slice (PolygonAxis K)
  NumVerts : Int
deriving DecidableEq

/-- Go `SegmentShape` (segmentShape.go, lines 10-25). -/
structure SegmentShape (K : Type) where
  A : Vect K
  B : Vect K
  Radius : K
  N : Vect K
  Tn : Vect K
  Ta : Vect K
  Tb : Vect K
  A_tangent : Vect K
  B_tangent : Vect K
deriving DecidableEq

/-- The dynamic type stored in the interface field `Shape.ShapeClass`. -/
inductive ShapeClass (K : Type) where
  | polygon (poly : PolygonShape K) : ShapeClass K
  | segment (seg : SegmentShape K) : ShapeClass K
deriving DecidableEq

/-- Modelled from the spec: the struct `Shape`, declared outside the sources at hand;
only its field `ShapeClass` is used here. -/
structure Shape (K : Type) where
  ShapeClass : ShapeClass K
deriving DecidableEq

section Polygon

variable {K : Type} [LinearOrderedField K]

/-- The value `&PolygonShape{}`: nil slices and `NumVerts = 0`. -/
def PolygonShape.zero : PolygonShape K := ⟨Slice.empty, Slice.empty, Slice.empty, Slice.empty, 0⟩

/-- The argument `verts Vertices` of `SetVerts` as the call sees it: the `nil` slice, a
non-nil slice over an array of its own (`fresh`), or a slice over the array behind the
receiver's `Verts`, as in `poly.SetVerts(poly.Verts, offset)` (`shared lo n` is the window
`[lo : lo+n]` of that array, so `poly.Verts` itself is `shared 0 len(poly.Verts)`).  No
other slice of the receiver is written by `SetVerts` while the argument is read. -/
inductive VertsArg (K : Type) where
  | nil : VertsArg K
  | fresh (elems : List (Vect K)) : VertsArg K
  | shared (lo n : Nat) : VertsArg K

/-- Go `len(verts)`. -/
def VertsArg.len : VertsArg K → Nat
  | .nil => 0
  | .fresh elems => elems.length
  | .shared _ n => n

/-- The elements of the argument in the current state: a `shared` argument shows what the
array behind `poly.Verts` holds now. -/
def VertsArg.contents (verts : VertsArg K) (poly : PolygonShape K) : List (Vect K) :=
  match verts with
  | .nil => []
  | .fresh elems => elems
  | .shared lo n => ((poly.Verts.elems ++ poly.Verts.spare).drop lo).take n

/-- Go `verts[i]` in the current state; `none` when `i` is out of range. -/
def VertsArg.read (verts : VertsArg K) (poly : PolygonShape K) (i : Nat) : Option (Vect K) :=
  (verts.contents poly)[i]?

/-- A `shared` argument is a slice expression that Go accepts and that is not nil: the
array behind `poly.Verts` exists (a slice of the nil slice is nil, the argument
`VertsArg.nil`) and the window lies within its capacity. -/
def VertsArg.ValidFor (verts : VertsArg K) (poly : PolygonShape K) : Prop :=
  match verts with
  | .shared lo n => 0 < poly.Verts.cap ∧ lo + n ≤ poly.Verts.cap
  | _ => True

/-- The body of the loop of `SetVerts` (polygonShape.go, lines 80-86). -/
def PolygonShape.SetVerts.body (ops : VectOps K) (verts : VertsArg K) (offset : Vect K)
    (numVerts : Nat) (i : Nat) (poly : PolygonShape K) : Option (PolygonShape K) := do
  let vi ← verts.read poly i
  let a := Add offset vi
  let vj ← verts.read poly ((i + 1) % numVerts)
  let b := Add offset vj
  let n := Normalize ops (ops.Perp (Sub b a))
  let vs ← poly.Verts.store i a
  let poly := { poly with Verts := vs }
  let ax ← poly.Axes.storeField i (fun t => { t with N := n })
  let poly := { poly with Axes := ax }
  let ax ← poly.Axes.storeField i (fun t => { t with D := Dot n a })
  pure { poly with Axes := ax }

/-- Go `PolygonShape.SetVerts` (polygonShape.go, lines 49-88).  The result is the polygon
after the call and the lines logged.  When the slices are made anew (line 66) a `shared`
argument keeps the old array, which is no longer written: it goes on as `fresh` with the
elements of that array. -/
def PolygonShape.SetVerts (ops : VectOps K) (ValidatePolygon : List (Vect K) → Bool)
    (poly : PolygonShape K) (verts : VertsArg K) (offset : Vect K) :
    Option (PolygonShape K × List String) :=
  match verts with
  | VertsArg.nil => some (poly, ["Error: no vertices passed!"])
  | verts => do
    let log :=
      if ValidatePolygon (verts.contents poly) == false then ["Warning: vertices not valid"]
      else []
    let numVerts := verts.len
    let oldnumVerts := poly.Verts.len
    let stale := verts.contents poly
    let poly := { poly with NumVerts := (numVerts : Int) }
    let (poly, verts) ←
      if oldnumVerts < numVerts then
        pure ({ poly with
          Verts := Slice.make ⟨0, 0⟩ numVerts
          TVerts := Slice.make ⟨0, 0⟩ numVerts
          Axes := Slice.make ⟨⟨0, 0⟩, 0⟩ numVerts
          TAxes := Slice.make ⟨⟨0, 0⟩, 0⟩ numVerts }, VertsArg.fresh stale)
      else do
        let vs ← poly.Verts.upTo numVerts
        let tvs ← poly.TVerts.upTo numVerts
        let ax ← poly.Axes.upTo numVerts
        let tax ← poly.TAxes.upTo numVerts
        pure ({ poly with Verts := vs, TVerts := tvs, Axes := ax, TAxes := tax }, verts)
    let poly ← forLoop (PolygonShape.SetVerts.body ops verts offset numVerts) 0 numVerts poly
    pure (poly, log)

/-- Go `NewPolygon` (polygonShape.go, lines 33-46).  The inner `Option` is the returned
pointer, `none` for `nil`.  The receiver of the inner `SetVerts` is new and has no array,
so a non-nil argument is `fresh`. -/
def NewPolygon (ops : VectOps K) (ValidatePolygon : List (Vect K) → Bool)
    (verts : Option (List (Vect K))) (offset : Vect K) :
    Option (Option (Shape K) × List String) :=
  match verts with
  | none => some (none, ["Error: no vertices passed!"])
  | some verts => do
    let (poly, log) ←
      PolygonShape.SetVerts ops ValidatePolygon PolygonShape.zero (VertsArg.fresh verts) offset
    pure (some ⟨ShapeClass.polygon poly⟩, log)

/-- The body of the first loop of `update` (polygonShape.go, lines 103-105). -/
def PolygonShape.update.axes (xf : Transform K) (src : Slice (PolygonAxis K)) (i : Nat)
    (dst : Slice (PolygonAxis K)) : Option (Slice (PolygonAxis K)) := do
  let s ← src.index i
  let n := xf.RotateVect s.N
  let dst ← dst.storeField i (fun t => { t with N := n })
  let s ← src.index i
  dst.storeField i (fun t => { t with D := Dot xf.Position n + s.D })

/-- The four assignments that grow the running box by the point `v`
(polygonShape.go, lines 123-126). -/
def AABB.grow (aabb : AABB K) (v : Vect K) : AABB K :=
  let aabb := { aabb with Lower := { aabb.Lower with X := Ext.min aabb.Lower.X (Ext.fin v.X) } }
  let aabb := { aabb with Upper := { aabb.Upper with X := Ext.max aabb.Upper.X (Ext.fin v.X) } }
  let aabb := { aabb with Lower := { aabb.Lower with Y := Ext.min aabb.Lower.Y (Ext.fin v.Y) } }
  { aabb with Upper := { aabb.Upper with Y := Ext.max aabb.Upper.Y (Ext.fin v.Y) } }

/-- The box that `update` starts from (polygonShape.go, lines 110-114). -/
def AABB.seed : AABB K := ⟨⟨Ext.pinf, Ext.pinf⟩, ⟨Ext.ninf, Ext.ninf⟩⟩

/-- The body of the second loop of `update` (polygonShape.go, lines 120-126). -/
def PolygonShape.update.verts (xf : Transform K) (src : Slice (Vect K)) (i : Nat)
    (st : AABB K × Slice (Vect K)) : Option (AABB K × Slice (Vect K)) := do
  let (aabb, dst) := st
  let s ← src.index i
  let v := xf.TransformVect s
  let dst ← dst.store i v
  pure (aabb.grow v, dst)

/-- Go `PolygonShape.update` (polygonShape.go, lines 96-131): the returned box and the
polygon after the call. -/
def PolygonShape.update (xf : Transform K) (poly : PolygonShape K) :
    Option (AABB K × PolygonShape K) := do
  let tax ← forLoop (PolygonShape.update.axes xf poly.Axes) 0 poly.NumVerts.toNat poly.TAxes
  let poly := { poly with TAxes := tax }
  let aabb : AABB K := AABB.seed
  let (aabb, tvs) ← forLoop (PolygonShape.update.verts xf poly.Verts) 0 poly.NumVerts.toNat
    (aabb, poly.TVerts)
  pure (aabb, { poly with TVerts := tvs })

/-- The loop of `ContainsVert` over the remaining axes (polygonShape.go, lines 139-146). -/
def PolygonShape.ContainsVert.loop (v : Vect K) : List (PolygonAxis K) → Bool
  | [] => true
  | axis :: rest =>
    let dist := Dot axis.N v - axis.D
    if dist > 0 then false else PolygonShape.ContainsVert.loop v rest

/-- Go `PolygonShape.ContainsVert` (polygonShape.go, lines 138-147). -/
def PolygonShape.ContainsVert (poly : PolygonShape K) (v : Vect K) : Bool :=
  PolygonShape.ContainsVert.loop v poly.TAxes.elems

/-- Go `PolygonShape.TestPoint` (polygonShape.go, lines 134-136). -/
def PolygonShape.TestPoint (poly : PolygonShape K) (point : Vect K) : Bool :=
  poly.ContainsVert point

/-- The loop of `ContainsVertPartial` over the remaining axes
(polygonShape.go, lines 150-160). -/
def PolygonShape.ContainsVertPartial.loop (v n : Vect K) : List (PolygonAxis K) → Bool
  | [] => true
  | axis :: rest =>
    if Dot axis.N n < 0 then PolygonShape.ContainsVertPartial.loop v n rest
    else
      let dist := Dot axis.N v - axis.D
      if dist > 0 then false else PolygonShape.ContainsVertPartial.loop v n rest

/-- Go `PolygonShape.ContainsVertPartial` (polygonShape.go, lines 149-161). -/
def PolygonShape.ContainsVertPartial (poly : PolygonShape K) (v n : Vect K) : Bool :=
  PolygonShape.ContainsVertPartial.loop v n poly.TAxes.elems

/-- Go `PolygonShape.ValueOnAxis` (polygonShape.go, lines 163-172). -/
def PolygonShape.ValueOnAxis (poly : PolygonShape K) (n : Vect K) (d : K) : Option K := do
  let verts := poly.TVerts
  let v0 ← verts.index 0
  let min := Dot n v0
  let min ← forLoop (fun i min => do
      let vi ← verts.index i
      pure (Min.min min (Dot n vi))) 1 poly.NumVerts.toNat min
  pure (min - d)

/-- The length invariant of the data model:
`len(Verts) = len(TVerts) = len(Axes) = len(TAxes) = NumVerts`. -/
def PolygonShape.LenInv (poly : PolygonShape K) : Prop :=
  (poly.Verts.len : Int) = poly.NumVerts ∧ (poly.TVerts.len : Int) = poly.NumVerts ∧
  (poly.Axes.len : Int) = poly.NumVerts ∧ (poly.TAxes.len : Int) = poly.NumVerts

end Polygon

section Segment

variable {K : Type} [LinearOrderedField K]

/-- Modelled from the spec: `vect.Min` of the external package `vect`, the component-wise
minimum of two vectors. -/
def Vect.Min (a b : Vect K) : Vect K := ⟨min a.X b.X, min a.Y b.Y⟩

/-- Modelled from the spec: `vect.Max` of the external package `vect`, the component-wise
maximum of two vectors. -/
def Vect.Max (a b : Vect K) : Vect K := ⟨max a.X b.X, max a.Y b.Y⟩

/-- Modelled from the spec: the method `Sub` of `vect.Vect`, called for its effect in
`min.Sub(rv)`: it subtracts `b` from the receiver in place ("expanded by `radius` in both
axes").  The value is the receiver after the call. -/
def Vect.Sub (v b : Vect K) : Vect K := ⟨v.X - b.X, v.Y - b.Y⟩

/-- Modelled from the spec: the method `Add` of `vect.Vect`, called for its effect in
`max.Add(rv)`: it adds `b` to the receiver in place.  The value is the receiver after the
call. -/
def Vect.Add (v b : Vect K) : Vect K := ⟨v.X + b.X, v.Y + b.Y⟩

/-- A vector of finite coordinates as the corner of a box. -/
def Vect.toExt (v : Vect K) : Vect (Ext K) := ⟨Ext.fin v.X, Ext.fin v.Y⟩

/-- Go `NewSegmentShape` (segmentShape.go, lines 27-35): the fields that the literal does
not name hold the zero vector. -/
def NewSegmentShape (a b : Vect K) (r : K) : Shape K :=
  ⟨ShapeClass.segment
    { A := a, B := b, Radius := r, N := ⟨0, 0⟩, Tn := ⟨0, 0⟩, Ta := ⟨0, 0⟩, Tb := ⟨0, 0⟩,
      A_tangent := ⟨0, 0⟩, B_tangent := ⟨0, 0⟩ }⟩

/-- Go `SegmentShape.Update` (segmentShape.go, lines 42-62): the returned box and the
segment after the call.  Line 47 assigns to the field `B`. -/
def SegmentShape.Update (ops : VectOps K) (xf : Transform K) (segment : SegmentShape K) :
    AABB K × SegmentShape K :=
  let a := xf.TransformVect segment.A
  let b := xf.TransformVect segment.B
  let segment := { segment with Ta := a }
  let segment := { segment with Tb := b }
  let segment := { segment with B := ops.Perp (Normalize ops (Sub segment.B segment.A)) }
  let segment := { segment with Tn := xf.RotateVect segment.N }
  let rv : Vect K := ⟨segment.Radius, segment.Radius⟩
  let min := Vect.Min a b
  let min := min.Sub rv
  let max := Vect.Max a b
  let max := max.Add rv
  (⟨min.toExt, max.toExt⟩, segment)

end Segment


/-! ## Concrete instances over the rationals -/

/-- One orientation of `Perp`: the counter-clockwise quarter turn `(x, y) ↦ (-y, x)`. -/
def perpLeft {K : Type} [LinearOrderedField K] (v : Vect K) : Vect K := ⟨-v.Y, v.X⟩

/-- Modelled from the spec: `vect.Perp` of the external package `vect`.  The specification
makes `normalize(perp(edge))` the outward normal of an edge and takes the counter-clockwise
square `(0,0), (1,0), (1,1), (0,1)` as its example of containment, which fixes `perp` as
the clockwise quarter turn `(x, y) ↦ (y, -x)`. -/
def perpRight {K : Type} [LinearOrderedField K] (v : Vect K) : Vect K := ⟨v.Y, -v.X⟩

/-- A square root on the rationals, exact on the squares of rationals. -/
def sqrtQ (q : ℚ) : ℚ := (Nat.sqrt q.num.toNat : ℚ) / (Nat.sqrt q.den : ℚ)

/-- The vector operations over the rationals with `perpLeft` and `sqrtQ`. -/
def opsQ : VectOps ℚ := ⟨perpLeft, sqrtQ⟩

/-- The square `(0,0), (1,0), (1,1), (0,1)`. -/
def unitSquare : List (Vect ℚ) := [⟨0, 0⟩, ⟨1, 0⟩, ⟨1, 1⟩, ⟨0, 1⟩]

/-- The unit square as `SetVerts` stores it with `opsQ` and offset `(0,0)`, before any
`update`. -/
def squarePoly : PolygonShape ℚ :=
  ⟨⟨unitSquare, []⟩, ⟨List.replicate 4 ⟨0, 0⟩, []⟩,
    ⟨[⟨⟨0, 1⟩, 0⟩, ⟨⟨-1, 0⟩, -1⟩, ⟨⟨0, -1⟩, -1⟩, ⟨⟨1, 0⟩, 0⟩], []⟩,
    ⟨List.replicate 4 ⟨⟨0, 0⟩, 0⟩, []⟩, 4⟩

/-- The translation by `(10, 0)` without rotation. -/
def shiftX : Transform ℚ := ⟨⟨10, 0⟩, ⟨1, 0⟩⟩

/-- The right triangle `(0,0), (3,4), (0,4)`, with edges of length 5, 3 and 4. -/
def triangle345 : List (Vect ℚ) := [⟨0, 0⟩, ⟨3, 4⟩, ⟨0, 4⟩]

/-- The rigid transform with position `(1, 2)`, cosine `3/5` and sine `4/5`. -/
def turn345 : Transform ℚ := ⟨⟨1, 2⟩, ⟨3 / 5, 4 / 5⟩⟩

/-- The vector operations over the rationals with `perpRight` and `sqrtQ`. -/
def opsSpecQ : VectOps ℚ := ⟨perpRight, sqrtQ⟩

/-- The segment from `(0,0)` to `(4,0)` with radius 1, as `NewSegmentShape` stores it. -/
def segment04 : SegmentShape ℚ :=
  { A := ⟨0, 0⟩, B := ⟨4, 0⟩, Radius := 1, N := ⟨0, 0⟩, Tn := ⟨0, 0⟩, Ta := ⟨0, 0⟩,
    Tb := ⟨0, 0⟩, A_tangent := ⟨0, 0⟩, B_tangent := ⟨0, 0⟩ }

/-- The unit square polygon with the outward normals of its edges as world axes. -/
def squareWorld : PolygonShape ℚ :=
  { squarePoly with
    TVerts := ⟨unitSquare, []⟩
    TAxes := ⟨[⟨⟨0, -1⟩, 0⟩, ⟨⟨1, 0⟩, 1⟩, ⟨⟨0, 1⟩, 1⟩, ⟨⟨-1, 0⟩, 0⟩], []⟩ }

/-- The segment that `NewSegmentShape` stores for both endpoints `(0,0)` and radius `-1`. -/
def segmentNegative : SegmentShape ℚ :=
  { A := ⟨0, 0⟩, B := ⟨0, 0⟩, Radius := -1, N := ⟨0, 0⟩, Tn := ⟨0, 0⟩, Ta := ⟨0, 0⟩,
    Tb := ⟨0, 0⟩, A_tangent := ⟨0, 0⟩, B_tangent := ⟨0, 0⟩ }

/-! ## Specification predicates -/

/-- The box `b` is finite and is the tight bounding box of the points that satisfy `S`:
it contains each of them and each of its four bounds is attained by one of them. -/
def AABB.TightFor {K : Type} [LinearOrderedField K] (b : AABB K) (S : Vect K → Prop) : Prop :=
  ∃ lx ly ux uy : K, b = ⟨⟨Ext.fin lx, Ext.fin ly⟩, ⟨Ext.fin ux, Ext.fin uy⟩⟩ ∧
    (∀ v, S v → lx ≤ v.X ∧ v.X ≤ ux ∧ ly ≤ v.Y ∧ v.Y ≤ uy) ∧
    (∃ v, S v ∧ v.X = lx) ∧ (∃ v, S v ∧ v.X = ux) ∧
    (∃ v, S v ∧ v.Y = ly) ∧ (∃ v, S v ∧ v.Y = uy)

/-! ## Loop and slice lemmas -/

section LoopLemmas

theorem foldlM_range_rule {σ : Type} (body : Nat → σ → Option σ) (P : Nat → σ → Prop) :
    ∀ (d lo : Nat) (s : σ), P lo s →
      (∀ i s, lo ≤ i → i < lo + d → P i s → ∃ s', body i s = some s' ∧ P (i + 1) s') →
      ∃ s', (List.range' lo d).foldlM (fun s i => body i s) s = some s' ∧ P (lo + d) s' := by
  intro d
  induction d with
  | zero =>
    intro lo s h0 _
    exact ⟨s, by simp, by simpa using h0⟩
  | succ d ih =>
    intro lo s h0 hstep
    obtain ⟨s1, hb, h1⟩ := hstep lo s (Nat.le_refl _) (by omega) h0
    obtain ⟨s2, hf, h2⟩ := ih (lo + 1) s1 h1 (fun i t hlo hhi hP =>
      hstep i t (by omega) (by omega) hP)
    refine ⟨s2, ?_, ?_⟩
    · simp only [List.range'_succ, List.foldlM_cons, hb]
      exact hf
    · have : lo + (d + 1) = lo + 1 + d := by omega
      rw [this]
      exact h2

theorem forLoop_rule {σ : Type} (body : Nat → σ → Option σ) (P : Nat → σ → Prop)
    (lo hi : Nat) (s : σ) (hle : lo ≤ hi) (h0 : P lo s)
    (hstep : ∀ i s, lo ≤ i → i < hi → P i s → ∃ s', body i s = some s' ∧ P (i + 1) s') :
    ∃ s', forLoop body lo hi s = some s' ∧ P hi s' := by
  have h := foldlM_range_rule body P (hi - lo) lo s h0 (fun i t h1 h2 hP =>
    hstep i t h1 (by omega) hP)
  have e : lo + (hi - lo) = hi := by omega
  rw [e] at h
  exact h

end LoopLemmas

namespace Slice

variable {α : Type}

theorem store_eq (s : Slice α) (i : Nat) (v : α) (h : i < s.elems.length) :
    s.store i v = some ⟨s.elems.set i v, s.spare⟩ := by
  simp [store, h]

theorem storeField_eq (s : Slice α) (i : Nat) (g : α → α) (h : i < s.elems.length) :
    s.storeField i g = some ⟨s.elems.set i (g (s.elems.get ⟨i, h⟩)), s.spare⟩ := by
  simp [storeField, index, store, h, List.getElem?_eq_getElem]

theorem upTo_eq (s : Slice α) (n : Nat) (h : n ≤ s.elems.length) :
    s.upTo n = some ⟨s.elems.take n, s.elems.drop n ++ s.spare⟩ := by
  have h1 : n ≤ s.elems.length + s.spare.length := by omega
  simp [upTo, h1, List.take_append_of_le_length h, List.drop_append_of_le_length h]

end Slice


theorem lenInv_zero {K : Type} : (PolygonShape.zero : PolygonShape K).LenInv := by
  simp [PolygonShape.LenInv, PolygonShape.zero, Slice.len, Slice.empty]

section PolygonLemmas

variable {K : Type} [LinearOrderedField K]

theorem SetVerts_body_eq (ops : VectOps K) (verts : VertsArg K) (offset : Vect K)
    (n i : Nat) (poly : PolygonShape K) (vi vj : Vect K)
    (hi : verts.read poly i = some vi) (hj : verts.read poly ((i + 1) % n) = some vj)
    (hv : i < poly.Verts.elems.length) (ha : i < poly.Axes.elems.length) :
    PolygonShape.SetVerts.body ops verts offset n i poly =
      some { poly with
        Verts := ⟨poly.Verts.elems.set i (Add offset vi), poly.Verts.spare⟩
        Axes := ⟨poly.Axes.elems.set i
          ⟨Normalize ops (ops.Perp (Sub (Add offset vj) (Add offset vi))),
            Dot (Normalize ops (ops.Perp (Sub (Add offset vj) (Add offset vi))))
              (Add offset vi)⟩, poly.Axes.spare⟩ } := by
  have ha2 : i < (poly.Axes.elems.set i
      ⟨Normalize ops (ops.Perp (Sub (Add offset vj) (Add offset vi))),
        (poly.Axes.elems.get ⟨i, ha⟩).D⟩).length := by simpa using ha
  simp only [PolygonShape.SetVerts.body, hi, hj, Option.bind_eq_bind, Option.some_bind,
    Slice.store_eq _ _ _ hv, Slice.storeField_eq _ _ _ ha]
  rw [Slice.storeField_eq _ _ _ ha2]
  simp


theorem SetVerts_loop_spec (ops : VectOps K) (verts : List (Vect K)) (offset : Vect K)
    (poly0 : PolygonShape K) (hv : poly0.Verts.elems.length = verts.length)
    (ha : poly0.Axes.elems.length = verts.length) :
    ∃ p, forLoop (PolygonShape.SetVerts.body ops (VertsArg.fresh verts) offset verts.length)
        0 verts.length poly0 = some p ∧
      p.TVerts = poly0.TVerts ∧ p.TAxes = poly0.TAxes ∧ p.NumVerts = poly0.NumVerts ∧
      p.Verts.elems.length = verts.length ∧ p.Axes.elems.length = verts.length ∧
      (∀ (i : Nat) (vi : Vect K), verts[i]? = some vi → p.Verts.elems[i]? = some (Add offset vi)) ∧
      (∀ (i : Nat) (vi vj : Vect K), verts[i]? = some vi → verts[(i + 1) % verts.length]? = some vj →
        p.Axes.elems[i]? = some
          ⟨Normalize ops (ops.Perp (Sub (Add offset vj) (Add offset vi))),
            Dot (Normalize ops (ops.Perp (Sub (Add offset vj) (Add offset vi))))
              (Add offset vi)⟩) := by
  have key := forLoop_rule
    (PolygonShape.SetVerts.body ops (VertsArg.fresh verts) offset verts.length)
    (fun k p =>
      p.TVerts = poly0.TVerts ∧ p.TAxes = poly0.TAxes ∧ p.NumVerts = poly0.NumVerts ∧
      p.Verts.elems.length = verts.length ∧ p.Axes.elems.length = verts.length ∧
      (∀ (i : Nat) (vi : Vect K), i < k → verts[i]? = some vi → p.Verts.elems[i]? = some (Add offset vi)) ∧
      (∀ (i : Nat) (vi vj : Vect K), i < k → verts[i]? = some vi → verts[(i + 1) % verts.length]? = some vj →
        p.Axes.elems[i]? = some
          ⟨Normalize ops (ops.Perp (Sub (Add offset vj) (Add offset vi))),
            Dot (Normalize ops (ops.Perp (Sub (Add offset vj) (Add offset vi))))
              (Add offset vi)⟩))
    0 verts.length poly0 (Nat.zero_le _)
    ⟨rfl, rfl, rfl, hv, ha, fun i _ h => absurd h (Nat.not_lt_zero i),
      fun i _ _ h => absurd h (Nat.not_lt_zero i)⟩
    (by
      intro k p _ hk ⟨h1, h2, h3, h4, h5, h6, h7⟩
      have hk2 : (k + 1) % verts.length < verts.length := Nat.mod_lt _ (by omega)
      have ei : verts[k]? = some (verts.get ⟨k, hk⟩) := List.getElem?_eq_getElem hk
      have ej : verts[(k + 1) % verts.length]? = some (verts.get ⟨_, hk2⟩) :=
        List.getElem?_eq_getElem hk2
      refine ⟨_, SetVerts_body_eq ops (VertsArg.fresh verts) offset verts.length k p _ _ ei ej
        (by omega) (by omega), h1, h2, h3, by simpa using h4, by simpa using h5, ?_, ?_⟩
      · intro i vi hi hvi
        by_cases hik : i = k
        · subst hik
          rw [ei] at hvi
          cases hvi
          simp [List.getElem?_set, h4, hk]
        · simp only [List.getElem?_set, if_neg (Ne.symm hik)]
          exact h6 i vi (by omega) hvi
      · intro i vi vj hi hvi hvj
        by_cases hik : i = k
        · subst hik
          rw [ei] at hvi
          rw [ej] at hvj
          cases hvi
          cases hvj
          simp [List.getElem?_set, h5, hk]
        · simp only [List.getElem?_set, if_neg (Ne.symm hik)]
          exact h7 i vi vj (by omega) hvi hvj)
  obtain ⟨p, hp, h1, h2, h3, h4, h5, h6, h7⟩ := key
  refine ⟨p, hp, h1, h2, h3, h4, h5, ?_, ?_⟩
  · intro i vi hvi
    have hi : i < verts.length := by
      by_contra hc
      rw [List.getElem?_eq_none (by omega)] at hvi
      cases hvi
    exact h6 i vi hi hvi
  · intro i vi vj hvi hvj
    have hi : i < verts.length := by
      by_contra hc
      rw [List.getElem?_eq_none (by omega)] at hvi
      cases hvi
    exact h7 i vi vj hi hvi hvj


theorem SetVerts_spec (ops : VectOps K) (V : List (Vect K) → Bool) (poly : PolygonShape K)
    (verts : List (Vect K)) (offset : Vect K) (hInv : poly.LenInv) :
    ∃ p, PolygonShape.SetVerts ops V poly (VertsArg.fresh verts) offset =
        some (p, if V verts == false then ["Warning: vertices not valid"] else []) ∧
      p.NumVerts = (verts.length : Int) ∧
      p.Verts.elems.length = verts.length ∧ p.TVerts.elems.length = verts.length ∧
      p.Axes.elems.length = verts.length ∧ p.TAxes.elems.length = verts.length ∧
      (∀ (i : Nat) (vi : Vect K), verts[i]? = some vi →
        p.Verts.elems[i]? = some (Add offset vi)) ∧
      (∀ (i : Nat) (vi vj : Vect K), verts[i]? = some vi →
        verts[(i + 1) % verts.length]? = some vj →
        p.Axes.elems[i]? = some
          ⟨Normalize ops (ops.Perp (Sub (Add offset vj) (Add offset vi))),
            Dot (Normalize ops (ops.Perp (Sub (Add offset vj) (Add offset vi))))
              (Add offset vi)⟩) := by
  obtain ⟨i1, i2, i3, i4⟩ := hInv
  simp only [Slice.len] at i1 i2 i3 i4
  by_cases hgrow : poly.Verts.elems.length < verts.length
  · obtain ⟨p, hp, h1, h2, h3, h4, h5, h6, h7⟩ := SetVerts_loop_spec ops verts offset
      { poly with
          NumVerts := (verts.length : Int)
          Verts := Slice.make ⟨0, 0⟩ verts.length
          TVerts := Slice.make ⟨0, 0⟩ verts.length
          Axes := Slice.make ⟨⟨0, 0⟩, 0⟩ verts.length
          TAxes := Slice.make ⟨⟨0, 0⟩, 0⟩ verts.length }
      (by simp [Slice.make]) (by simp [Slice.make])
    refine ⟨p, ?_, h3, h4, ?_, h5, ?_, h6, h7⟩
    · simp only [PolygonShape.SetVerts, VertsArg.len, VertsArg.contents, Slice.len,
        if_pos hgrow, Option.bind_eq_bind, Option.pure_def, Option.some_bind, hp]
    · rw [h1]; simp [Slice.make]
    · rw [h2]; simp [Slice.make]
  · have l1 : verts.length ≤ poly.Verts.elems.length := by omega
    have l2 : verts.length ≤ poly.TVerts.elems.length := by omega
    have l3 : verts.length ≤ poly.Axes.elems.length := by omega
    have l4 : verts.length ≤ poly.TAxes.elems.length := by omega
    obtain ⟨p, hp, h1, h2, h3, h4, h5, h6, h7⟩ := SetVerts_loop_spec ops verts offset
      { poly with
          NumVerts := (verts.length : Int)
          Verts := ⟨poly.Verts.elems.take verts.length,
            poly.Verts.elems.drop verts.length ++ poly.Verts.spare⟩
          TVerts := ⟨poly.TVerts.elems.take verts.length,
            poly.TVerts.elems.drop verts.length ++ poly.TVerts.spare⟩
          Axes := ⟨poly.Axes.elems.take verts.length,
            poly.Axes.elems.drop verts.length ++ poly.Axes.spare⟩
          TAxes := ⟨poly.TAxes.elems.take verts.length,
            poly.TAxes.elems.drop verts.length ++ poly.TAxes.spare⟩ }
      (by simp [l1]) (by simp [l3])
    refine ⟨p, ?_, h3, h4, ?_, h5, ?_, h6, h7⟩
    · simp only [PolygonShape.SetVerts, VertsArg.len, VertsArg.contents, Slice.len,
        if_neg hgrow, Option.bind_eq_bind, Option.pure_def, Option.some_bind,
        Slice.upTo_eq _ _ l1, Slice.upTo_eq _ _ l2, Slice.upTo_eq _ _ l3,
        Slice.upTo_eq _ _ l4, hp]
    · rw [h1]; simp [l2]
    · rw [h2]; simp [l4]


theorem SetVerts_ring (ops : VectOps K) (V : List (Vect K) → Bool) (poly : PolygonShape K)
    (verts : List (Vect K)) (offset : Vect K) (hInv : poly.LenInv) :
    ∃ p log, PolygonShape.SetVerts ops V poly (VertsArg.fresh verts) offset = some (p, log) ∧
      p.NumVerts = (verts.length : Int) ∧
      ∀ (i : Nat) (hi : i < verts.length),
        p.Verts.index i = some (Add offset verts[i]) ∧
        ∃ wj ax, p.Verts.index ((i + 1) % verts.length) = some wj ∧
          p.Axes.index i = some ax ∧
          ax.N = Normalize ops (ops.Perp (Sub wj (Add offset verts[i]))) ∧
          ax.D = Dot ax.N (Add offset verts[i]) := by
  obtain ⟨p, hp, h1, _, _, _, _, h6, h7⟩ := SetVerts_spec ops V poly verts offset hInv
  refine ⟨p, _, hp, h1, ?_⟩
  intro i hi
  have hj : (i + 1) % verts.length < verts.length := Nat.mod_lt _ (by omega)
  have ei : verts[i]? = some verts[i] := List.getElem?_eq_getElem hi
  have ej : verts[(i + 1) % verts.length]? = some verts[(i + 1) % verts.length] :=
    List.getElem?_eq_getElem hj
  exact ⟨h6 i _ ei, _, _, h6 _ _ ej, h7 i _ _ ei ej, rfl, rfl⟩

/-- For an argument with an array of its own, on a receiver that satisfies the length
invariant: `SetVerts` returns, sets `NumVerts = n` and leaves `Verts[i] = offset + verts[i]`,
`Axes[i].N = Normalize(Perp(Verts[(i+1) mod n] - Verts[i]))` and
`Axes[i].D = Dot(Axes[i].N, Verts[i])`; so does the polygon of `NewPolygon`. -/
theorem SetVerts_fresh_vertices_and_axes (ops : VectOps K) (V : List (Vect K) → Bool)
    (poly : PolygonShape K) (verts : List (Vect K)) (offset : Vect K) (hInv : poly.LenInv) :
    (∃ p log, PolygonShape.SetVerts ops V poly (VertsArg.fresh verts) offset = some (p, log) ∧
      p.NumVerts = (verts.length : Int) ∧
      ∀ (i : Nat) (hi : i < verts.length),
        p.Verts.index i = some (Add offset verts[i]) ∧
        ∃ wj ax, p.Verts.index ((i + 1) % verts.length) = some wj ∧
          p.Axes.index i = some ax ∧
          ax.N = Normalize ops (ops.Perp (Sub wj (Add offset verts[i]))) ∧
          ax.D = Dot ax.N (Add offset verts[i])) ∧
    (∃ p log, NewPolygon ops V (some verts) offset = some (some ⟨ShapeClass.polygon p⟩, log) ∧
      p.NumVerts = (verts.length : Int) ∧
      ∀ (i : Nat) (hi : i < verts.length),
        p.Verts.index i = some (Add offset verts[i]) ∧
        ∃ wj ax, p.Verts.index ((i + 1) % verts.length) = some wj ∧
          p.Axes.index i = some ax ∧
          ax.N = Normalize ops (ops.Perp (Sub wj (Add offset verts[i]))) ∧
          ax.D = Dot ax.N (Add offset verts[i])) := by
  refine ⟨SetVerts_ring ops V poly verts offset hInv, ?_⟩
  obtain ⟨p, log, hp, h⟩ := SetVerts_ring ops V PolygonShape.zero verts offset lenInv_zero
  exact ⟨p, log, by simp [NewPolygon, hp], h⟩

/-! ### `SetVerts` on any argument -/

theorem SetVerts_loop_frame (ops : VectOps K) (verts : VertsArg K) (offset : Vect K)
    (n s : Nat) (poly0 : PolygonShape K) (hv : poly0.Verts.elems.length = n)
    (hs : poly0.Verts.spare.length = s) (ha : poly0.Axes.elems.length = n)
    (hread : ∀ (p : PolygonShape K) (i : Nat), p.Verts.elems.length = n →
      p.Verts.spare.length = s → i < n → ∃ v, verts.read p i = some v) :
    ∃ p, forLoop (PolygonShape.SetVerts.body ops verts offset n) 0 n poly0 = some p ∧
      p.TVerts = poly0.TVerts ∧ p.TAxes = poly0.TAxes ∧ p.NumVerts = poly0.NumVerts ∧
      p.Verts.elems.length = n ∧ p.Axes.elems.length = n ∧
      ∀ (i : Nat), i < n →
        ∃ v a, p.Verts.elems[i]? = some v ∧ p.Axes.elems[i]? = some a ∧ a.D = Dot a.N v := by
  obtain ⟨p, hp, h1, h2, h3, h4, _, h5, h6⟩ := forLoop_rule
    (PolygonShape.SetVerts.body ops verts offset n)
    (fun k p =>
      p.TVerts = poly0.TVerts ∧ p.TAxes = poly0.TAxes ∧ p.NumVerts = poly0.NumVerts ∧
      p.Verts.elems.length = n ∧ p.Verts.spare.length = s ∧ p.Axes.elems.length = n ∧
      ∀ (i : Nat), i < k →
        ∃ v a, p.Verts.elems[i]? = some v ∧ p.Axes.elems[i]? = some a ∧ a.D = Dot a.N v)
    0 n poly0 (Nat.zero_le _)
    ⟨rfl, rfl, rfl, hv, hs, ha, fun i h => absurd h (Nat.not_lt_zero i)⟩
    (by
      intro k p _ hk ⟨h1, h2, h3, h4, h4s, h5, h6⟩
      obtain ⟨vi, hvi⟩ := hread p k h4 h4s hk
      obtain ⟨vj, hvj⟩ := hread p ((k + 1) % n) h4 h4s (Nat.mod_lt _ (by omega))
      refine ⟨_, SetVerts_body_eq ops verts offset n k p vi vj hvi hvj (by omega) (by omega),
        h1, h2, h3, by simpa using h4, h4s, by simpa using h5, ?_⟩
      intro i hi
      by_cases hik : i = k
      · subst hik
        refine ⟨Add offset vi,
          ⟨Normalize ops (ops.Perp (Sub (Add offset vj) (Add offset vi))),
            Dot (Normalize ops (ops.Perp (Sub (Add offset vj) (Add offset vi))))
              (Add offset vi)⟩, ?_, ?_, rfl⟩
        · simp [List.getElem?_set, h4, hk]
        · simp [List.getElem?_set, h5, hk]
      · obtain ⟨v, a, e1, e2, e3⟩ := h6 i (by omega)
        refine ⟨v, a, ?_, ?_, e3⟩
        · simp only [List.getElem?_set, if_neg (Ne.symm hik)]
          exact e1
        · simp only [List.getElem?_set, if_neg (Ne.symm hik)]
          exact e2)
  exact ⟨p, hp, h1, h2, h3, h4, h5, h6⟩

omit [LinearOrderedField K] in
theorem read_shared_some (lo n s : Nat) (p : PolygonShape K) (i : Nat)
    (hlen : p.Verts.elems.length = n) (hsp : p.Verts.spare.length = s)
    (hwin : lo + n ≤ n + s) (hi : i < n) :
    ∃ v, (VertsArg.shared lo n : VertsArg K).read p i = some v := by
  have hl : i < (((p.Verts.elems ++ p.Verts.spare).drop lo).take n).length := by
    simp only [List.length_take, List.length_drop, List.length_append, hlen, hsp]
    omega
  exact ⟨_, List.getElem?_eq_getElem hl⟩

theorem SetVerts_returns (ops : VectOps K) (V : List (Vect K) → Bool) (poly : PolygonShape K)
    (verts : VertsArg K) (offset : Vect K) (hInv : poly.LenInv)
    (hvalid : verts.ValidFor poly) :
    ∃ p log, PolygonShape.SetVerts ops V poly verts offset = some (p, log) ∧ p.LenInv ∧
      (verts ≠ VertsArg.nil →
        p.NumVerts = (verts.len : Int) ∧
        ∀ (i : Nat), i < verts.len →
          ∃ v a, p.Verts.index i = some v ∧ p.Axes.index i = some a ∧ a.D = Dot a.N v) := by
  cases verts with
  | nil => exact ⟨poly, _, rfl, hInv, fun h => absurd rfl h⟩
  | fresh l =>
    obtain ⟨p, hp, h1, h2, h3, h4, h5, h6, h7⟩ := SetVerts_spec ops V poly l offset hInv
    refine ⟨p, _, hp, ?_, fun _ => ⟨h1, ?_⟩⟩
    · simp only [PolygonShape.LenInv, Slice.len, h1, h2, h3, h4, h5, and_self]
    · intro i hi
      have hi2 : i < l.length := hi
      have hj : (i + 1) % l.length < l.length := Nat.mod_lt _ (by omega)
      exact ⟨_, _, h6 i _ (List.getElem?_eq_getElem hi2),
        h7 i _ _ (List.getElem?_eq_getElem hi2) (List.getElem?_eq_getElem hj), rfl⟩
  | shared lo n =>
    obtain ⟨i1, i2, i3, i4⟩ := hInv
    simp only [Slice.len] at i1 i2 i3 i4
    simp only [VertsArg.ValidFor, Slice.cap] at hvalid
    obtain ⟨_, hvalid⟩ := hvalid
    by_cases hgrow : poly.Verts.elems.length < n
    · have hlen : (((poly.Verts.elems ++ poly.Verts.spare).drop lo).take n).length = n := by
        simp only [List.length_take, List.length_drop, List.length_append]
        omega
      obtain ⟨p, hp, h1, h2, h3, h4, h5, h6, h7⟩ := SetVerts_loop_spec ops
        (((poly.Verts.elems ++ poly.Verts.spare).drop lo).take n) offset
        { poly with
            NumVerts := (n : Int)
            Verts := Slice.make ⟨0, 0⟩ n
            TVerts := Slice.make ⟨0, 0⟩ n
            Axes := Slice.make ⟨⟨0, 0⟩, 0⟩ n
            TAxes := Slice.make ⟨⟨0, 0⟩, 0⟩ n }
        (by simp only [Slice.make, List.length_replicate, hlen])
        (by simp only [Slice.make, List.length_replicate, hlen])
      rw [hlen] at hp h4 h5 h7
      refine ⟨p, if V (((poly.Verts.elems ++ poly.Verts.spare).drop lo).take n) == false
        then ["Warning: vertices not valid"] else [], ?_, ?_, fun _ => ⟨h3, ?_⟩⟩
      · simp only [PolygonShape.SetVerts, VertsArg.len, VertsArg.contents, Slice.len,
          if_pos hgrow, Option.bind_eq_bind, Option.pure_def, Option.some_bind, hp]
      · simp only [PolygonShape.LenInv, Slice.len, h1, h2, h3, h4, h5, Slice.make,
          List.length_replicate, and_self]
      · intro i hi
        have hi2 : i < (((poly.Verts.elems ++ poly.Verts.spare).drop lo).take n).length := by
          rw [hlen]
          exact hi
        have hj : (i + 1) % n <
            (((poly.Verts.elems ++ poly.Verts.spare).drop lo).take n).length := by
          rw [hlen]
          exact Nat.mod_lt _ (by omega)
        exact ⟨_, _, h6 i _ (List.getElem?_eq_getElem hi2),
          h7 i _ _ (List.getElem?_eq_getElem hi2) (List.getElem?_eq_getElem hj), rfl⟩
    · have l1 : n ≤ poly.Verts.elems.length := by omega
      have l2 : n ≤ poly.TVerts.elems.length := by omega
      have l3 : n ≤ poly.Axes.elems.length := by omega
      have l4 : n ≤ poly.TAxes.elems.length := by omega
      obtain ⟨p, hp, h1, h2, h3, h4, h5, h6⟩ := SetVerts_loop_frame ops
        (VertsArg.shared lo n) offset n
        (poly.Verts.elems.length - n + poly.Verts.spare.length)
        { poly with
            NumVerts := (n : Int)
            Verts := ⟨poly.Verts.elems.take n, poly.Verts.elems.drop n ++ poly.Verts.spare⟩
            TVerts := ⟨poly.TVerts.elems.take n, poly.TVerts.elems.drop n ++ poly.TVerts.spare⟩
            Axes := ⟨poly.Axes.elems.take n, poly.Axes.elems.drop n ++ poly.Axes.spare⟩
            TAxes := ⟨poly.TAxes.elems.take n, poly.TAxes.elems.drop n ++ poly.TAxes.spare⟩ }
        (by simp [l1]) (by simp) (by simp [l3])
        (fun q i hq hs hi => read_shared_some lo n _ q i hq hs (by omega) hi)
      refine ⟨p, if V (((poly.Verts.elems ++ poly.Verts.spare).drop lo).take n) == false
        then ["Warning: vertices not valid"] else [], ?_, ?_, fun _ => ⟨h3, h6⟩⟩
      · simp only [PolygonShape.SetVerts, VertsArg.len, VertsArg.contents, Slice.len,
          if_neg hgrow, Option.bind_eq_bind, Option.pure_def, Option.some_bind,
          Slice.upTo_eq _ _ l1, Slice.upTo_eq _ _ l2, Slice.upTo_eq _ _ l3,
          Slice.upTo_eq _ _ l4, hp]
      · simp only [PolygonShape.LenInv, Slice.len, h1, h2, h3, h4, h5, List.length_take,
          min_eq_left l2, min_eq_left l4, and_self]

/-! ### `update` -/

/-- The world axis that `update` derives from a local axis. -/
theorem update_axes_loop (xf : Transform K) (src dst0 : Slice (PolygonAxis K)) (n : Nat)
    (hs : src.elems.length = n) (hd : dst0.elems.length = n) :
    forLoop (PolygonShape.update.axes xf src) 0 n dst0 =
      some ⟨src.elems.map (fun s =>
        ⟨xf.RotateVect s.N, Dot xf.Position (xf.RotateVect s.N) + s.D⟩), dst0.spare⟩ := by
  obtain ⟨dst, hrun, h1, h2, h3⟩ := forLoop_rule (PolygonShape.update.axes xf src)
    (fun k dst => dst.elems.length = n ∧ dst.spare = dst0.spare ∧
      ∀ (i : Nat), i < k → dst.elems[i]? = (src.elems[i]?).map (fun s =>
        ⟨xf.RotateVect s.N, Dot xf.Position (xf.RotateVect s.N) + s.D⟩))
    0 n dst0 (Nat.zero_le _) ⟨hd, rfl, fun i h => absurd h (Nat.not_lt_zero i)⟩
    (by
      intro k dst _ hk ⟨h1, h2, h3⟩
      have hks : k < src.elems.length := by omega
      have hkd : k < dst.elems.length := by omega
      have es : src.index k = some (src.elems.get ⟨k, hks⟩) := by
        simp [Slice.index, List.getElem?_eq_getElem hks]
      have hkd2 : k < (dst.elems.set k
          ⟨xf.RotateVect (src.elems.get ⟨k, hks⟩).N, (dst.elems.get ⟨k, hkd⟩).D⟩).length := by
        simpa using hkd
      refine ⟨⟨dst.elems.set k ⟨xf.RotateVect (src.elems.get ⟨k, hks⟩).N,
          Dot xf.Position (xf.RotateVect (src.elems.get ⟨k, hks⟩).N) +
            (src.elems.get ⟨k, hks⟩).D⟩, dst.spare⟩, ?_, by simpa using h1, h2, ?_⟩
      · simp only [PolygonShape.update.axes, es, Option.bind_eq_bind, Option.some_bind,
          Slice.storeField_eq _ _ _ hkd]
        rw [Slice.storeField_eq _ _ _ hkd2]
        simp
      · intro i hi
        by_cases hik : i = k
        · subst hik
          simp [List.getElem?_set, hkd, List.getElem?_eq_getElem hks]
        · simp only [List.getElem?_set, if_neg (Ne.symm hik)]
          exact h3 i (by omega))
  rw [hrun]
  congr 1
  cases dst with
  | mk elems spare =>
    simp only at h1 h2 h3
    subst h2
    congr 1
    apply List.ext_getElem?
    intro i
    by_cases hi : i < n
    · rw [h3 i hi, List.getElem?_map]
    · rw [List.getElem?_eq_none (by omega), List.getElem?_eq_none (by simp; omega)]

theorem update_verts_loop (xf : Transform K) (src dst0 : Slice (Vect K)) (n : Nat)
    (hs : src.elems.length = n) (hd : dst0.elems.length = n) :
    forLoop (PolygonShape.update.verts xf src) 0 n (AABB.seed, dst0) =
      some ((src.elems.map xf.TransformVect).foldl AABB.grow AABB.seed,
        ⟨src.elems.map xf.TransformVect, dst0.spare⟩) := by
  obtain ⟨⟨box, dst⟩, hrun, h1, h2, h3, h4⟩ := forLoop_rule (PolygonShape.update.verts xf src)
    (fun k st => st.2.elems.length = n ∧ st.2.spare = dst0.spare ∧
      (∀ (i : Nat), i < k → st.2.elems[i]? = (src.elems[i]?).map xf.TransformVect) ∧
      st.1 = ((src.elems.take k).map xf.TransformVect).foldl AABB.grow AABB.seed)
    0 n (AABB.seed, dst0) (Nat.zero_le _)
    ⟨hd, rfl, fun i h => absurd h (Nat.not_lt_zero i), by simp⟩
    (by
      intro k st _ hk ⟨h1, h2, h3, h4⟩
      obtain ⟨box, dst⟩ := st
      simp only at h1 h2 h3 h4
      have hks : k < src.elems.length := by omega
      have hkd : k < dst.elems.length := by omega
      have es : src.index k = some (src.elems.get ⟨k, hks⟩) := by
        simp [Slice.index, List.getElem?_eq_getElem hks]
      refine ⟨(box.grow (xf.TransformVect (src.elems.get ⟨k, hks⟩)),
        ⟨dst.elems.set k (xf.TransformVect (src.elems.get ⟨k, hks⟩)), dst.spare⟩),
        ?_, by simpa using h1, h2, ?_, ?_⟩
      · simp only [PolygonShape.update.verts, es, Option.bind_eq_bind, Option.some_bind,
          Slice.store_eq _ _ _ hkd, Option.pure_def]
      · intro i hi
        by_cases hik : i = k
        · subst hik
          simp [List.getElem?_set, hkd, List.getElem?_eq_getElem hks]
        · simp only [List.getElem?_set, if_neg (Ne.symm hik)]
          exact h3 i (by omega)
      · have ht : src.elems.take (k + 1) = src.elems.take k ++ [src.elems.get ⟨k, hks⟩] := by
          rw [List.take_succ, List.getElem?_eq_getElem hks]
          rfl
        rw [ht, List.map_append, List.foldl_append, ← h4]
        rfl)
  simp only at h1 h2 h3 h4
  rw [hrun]
  have e1 : dst = ⟨src.elems.map xf.TransformVect, dst0.spare⟩ := by
    cases dst with
    | mk elems spare =>
      simp only at h1 h2 h3
      subst h2
      congr 1
      apply List.ext_getElem?
      intro i
      by_cases hi : i < n
      · rw [h3 i hi, List.getElem?_map]
      · rw [List.getElem?_eq_none (by omega), List.getElem?_eq_none (by simp; omega)]
  have e2 : src.elems.take n = src.elems := List.take_of_length_le (by omega)
  rw [e1, h4, e2]

theorem update_spec (xf : Transform K) (poly : PolygonShape K) (hInv : poly.LenInv) :
    PolygonShape.update xf poly =
      some ((poly.Verts.elems.map xf.TransformVect).foldl AABB.grow AABB.seed,
        { poly with
          TAxes := ⟨poly.Axes.elems.map (fun s =>
            ⟨xf.RotateVect s.N, Dot xf.Position (xf.RotateVect s.N) + s.D⟩), poly.TAxes.spare⟩
          TVerts := ⟨poly.Verts.elems.map xf.TransformVect, poly.TVerts.spare⟩ }) := by
  obtain ⟨i1, i2, i3, i4⟩ := hInv
  simp only [Slice.len] at i1 i2 i3 i4
  have ha := update_axes_loop xf poly.Axes poly.TAxes poly.NumVerts.toNat (by omega) (by omega)
  have hv := update_verts_loop xf poly.Verts poly.TVerts poly.NumVerts.toNat
    (by omega) (by omega)
  simp only [PolygonShape.update, ha, hv, Option.bind_eq_bind, Option.some_bind,
    Option.pure_def]

/-! ### The running bounding box -/

theorem grow_seed_tight (v : Vect K) : (AABB.seed.grow v).TightFor (fun w => w = v) := by
  refine ⟨v.X, v.Y, v.X, v.Y, rfl, ?_, ⟨v, rfl, rfl⟩, ⟨v, rfl, rfl⟩, ⟨v, rfl, rfl⟩,
    ⟨v, rfl, rfl⟩⟩
  intro w hw
  subst hw
  exact ⟨le_refl _, le_refl _, le_refl _, le_refl _⟩

theorem grow_tight (b : AABB K) (S : Vect K → Prop) (v : Vect K) (h : b.TightFor S) :
    (b.grow v).TightFor (fun w => S w ∨ w = v) := by
  obtain ⟨lx, ly, ux, uy, hb, hall, ⟨a1, s1, e1⟩, ⟨a2, s2, e2⟩, ⟨a3, s3, e3⟩, ⟨a4, s4, e4⟩⟩ := h
  subst hb
  refine ⟨min lx v.X, min ly v.Y, max ux v.X, max uy v.Y, rfl, ?_, ?_, ?_, ?_, ?_⟩
  · intro w hw
    rcases hw with hw | hw
    · obtain ⟨b1, b2, b3, b4⟩ := hall w hw
      exact ⟨le_trans (min_le_left _ _) b1, le_trans b2 (le_max_left _ _),
        le_trans (min_le_left _ _) b3, le_trans b4 (le_max_left _ _)⟩
    · subst hw
      exact ⟨min_le_right _ _, le_max_right _ _, min_le_right _ _, le_max_right _ _⟩
  · rcases min_choice lx v.X with h | h
    · exact ⟨a1, Or.inl s1, by rw [h, e1]⟩
    · exact ⟨v, Or.inr rfl, by rw [h]⟩
  · rcases max_choice ux v.X with h | h
    · exact ⟨a2, Or.inl s2, by rw [h, e2]⟩
    · exact ⟨v, Or.inr rfl, by rw [h]⟩
  · rcases min_choice ly v.Y with h | h
    · exact ⟨a3, Or.inl s3, by rw [h, e3]⟩
    · exact ⟨v, Or.inr rfl, by rw [h]⟩
  · rcases max_choice uy v.Y with h | h
    · exact ⟨a4, Or.inl s4, by rw [h, e4]⟩
    · exact ⟨v, Or.inr rfl, by rw [h]⟩

theorem tightFor_congr (b : AABB K) (S T : Vect K → Prop) (hST : ∀ w, S w ↔ T w)
    (h : b.TightFor S) : b.TightFor T := by
  have e : S = T := funext (fun w => propext (hST w))
  rw [← e]
  exact h

theorem foldl_grow_tight (l : List (Vect K)) :
    ∀ (b : AABB K) (S : Vect K → Prop), b.TightFor S →
      (l.foldl AABB.grow b).TightFor (fun w => S w ∨ w ∈ l) := by
  induction l with
  | nil =>
    intro b S h
    exact tightFor_congr b S _ (fun w => by simp) h
  | cons v t ih =>
    intro b S h
    have h2 := ih (b.grow v) _ (grow_tight b S v h)
    refine tightFor_congr _ _ _ (fun w => ?_) h2
    simp only [List.mem_cons]
    tauto

theorem foldl_grow_seed_tight (l : List (Vect K)) (hl : l ≠ []) :
    (l.foldl AABB.grow AABB.seed).TightFor (fun w => w ∈ l) := by
  cases l with
  | nil => exact absurd rfl hl
  | cons v t =>
    have h := foldl_grow_tight t (AABB.seed.grow v) _ (grow_seed_tight v)
    exact tightFor_congr _ _ _ (fun w => by simp only [List.mem_cons]) h

/-! ### Claims on `update` -/

theorem lenInv_squarePoly : squarePoly.LenInv := by
  simp [PolygonShape.LenInv, squarePoly, Slice.len, unitSquare]

/-- C2: on a polygon that satisfies the length invariant, `update(xf)` returns and sets, for
every `i < NumVerts`, `TAxes[i].N = RotateVect(xf, Axes[i].N)`,
`TAxes[i].D = Dot(xf.Position, TAxes[i].N) + Axes[i].D` and
`TVerts[i] = TransformVect(xf, Verts[i])`; `Verts`, `Axes` and `NumVerts` are unchanged. -/
theorem C2_update_world_caches (xf : Transform K) (poly : PolygonShape K)
    (hInv : poly.LenInv) :
    ∃ box p, PolygonShape.update xf poly = some (box, p) ∧
      p.Verts = poly.Verts ∧ p.Axes = poly.Axes ∧ p.NumVerts = poly.NumVerts ∧
      ∀ (i : Nat), (i : Int) < poly.NumVerts →
        ∃ a v ta, poly.Axes.index i = some a ∧ poly.Verts.index i = some v ∧
          p.TAxes.index i = some ta ∧ ta.N = xf.RotateVect a.N ∧
          ta.D = Dot xf.Position ta.N + a.D ∧
          p.TVerts.index i = some (xf.TransformVect v) := by
  refine ⟨_, _, update_spec xf poly hInv, rfl, rfl, rfl, ?_⟩
  obtain ⟨i1, _, i3, _⟩ := hInv
  simp only [Slice.len] at i1 i3
  intro i hi
  have hv : i < poly.Verts.elems.length := by omega
  have ha : i < poly.Axes.elems.length := by omega
  refine ⟨poly.Axes.elems.get ⟨i, ha⟩, poly.Verts.elems.get ⟨i, hv⟩,
    ⟨xf.RotateVect (poly.Axes.elems.get ⟨i, ha⟩).N,
      Dot xf.Position (xf.RotateVect (poly.Axes.elems.get ⟨i, ha⟩).N) +
        (poly.Axes.elems.get ⟨i, ha⟩).D⟩, ?_, ?_, ?_, rfl, rfl, ?_⟩
  · simp [Slice.index, List.getElem?_eq_getElem ha]
  · simp [Slice.index, List.getElem?_eq_getElem hv]
  · simp [Slice.index, List.getElem?_map, List.getElem?_eq_getElem ha]
  · simp [Slice.index, List.getElem?_map, List.getElem?_eq_getElem hv]

/-- Witness of C2: the unit square translated by `(10, 0)`. -/
theorem C2_update_world_caches_witness :
    squarePoly.LenInv ∧
    ∃ box p, PolygonShape.update shiftX squarePoly = some (box, p) ∧
      p.Verts = squarePoly.Verts ∧ p.Axes = squarePoly.Axes ∧
      p.NumVerts = squarePoly.NumVerts ∧
      ∀ (i : Nat), (i : Int) < squarePoly.NumVerts →
        ∃ a v ta, squarePoly.Axes.index i = some a ∧ squarePoly.Verts.index i = some v ∧
          p.TAxes.index i = some ta ∧ ta.N = shiftX.RotateVect a.N ∧
          ta.D = Dot shiftX.Position ta.N + a.D ∧
          p.TVerts.index i = some (shiftX.TransformVect v) :=
  ⟨lenInv_squarePoly, C2_update_world_caches shiftX squarePoly lenInv_squarePoly⟩

/-- C3: on a polygon with `NumVerts >= 1` (a polygon of the data model: its five fields
satisfy the length invariant, as every polygon that `NewPolygon`, `SetVerts` and `update`
leave does), `update(xf)` returns a finite box that is the tight bounding box of the world
vertices: every `TVerts[i]` lies inside, each of the four bounds is the coordinate of some
`TVerts[i]`, and `Lower <= Upper` in both coordinates. -/
theorem C3_update_box_tight (xf : Transform K) (poly : PolygonShape K)
    (hInv : poly.LenInv) (h1 : 1 ≤ poly.NumVerts) :
    ∃ box p lx ly ux uy, PolygonShape.update xf poly = some (box, p) ∧
      (p.TVerts.len : Int) = poly.NumVerts ∧
      box = ⟨⟨Ext.fin lx, Ext.fin ly⟩, ⟨Ext.fin ux, Ext.fin uy⟩⟩ ∧
      (∀ (i : Nat) (v : Vect K), p.TVerts.index i = some v →
        lx ≤ v.X ∧ v.X ≤ ux ∧ ly ≤ v.Y ∧ v.Y ≤ uy) ∧
      (∃ (i : Nat) (v : Vect K), p.TVerts.index i = some v ∧ v.X = lx) ∧
      (∃ (i : Nat) (v : Vect K), p.TVerts.index i = some v ∧ v.X = ux) ∧
      (∃ (i : Nat) (v : Vect K), p.TVerts.index i = some v ∧ v.Y = ly) ∧
      (∃ (i : Nat) (v : Vect K), p.TVerts.index i = some v ∧ v.Y = uy) ∧
      lx ≤ ux ∧ ly ≤ uy := by
  have hne : poly.Verts.elems.map xf.TransformVect ≠ [] := by
    obtain ⟨i1, _, _, _⟩ := hInv
    simp only [Slice.len] at i1
    intro h
    have h0 : (poly.Verts.elems.map xf.TransformVect).length = 0 := by rw [h]; rfl
    rw [List.length_map] at h0
    omega
  obtain ⟨lx, ly, ux, uy, hb, hall, ⟨a1, s1, e1⟩, ⟨a2, s2, e2⟩, ⟨a3, s3, e3⟩, ⟨a4, s4, e4⟩⟩ :=
    foldl_grow_seed_tight _ hne
  refine ⟨_, _, lx, ly, ux, uy, update_spec xf poly hInv, ?_, hb, ?_, ?_, ?_, ?_, ?_, ?_, ?_⟩
  · obtain ⟨i1, _, _, _⟩ := hInv
    simpa [Slice.len] using i1
  · intro i v hv
    exact hall v (List.mem_iff_getElem?.mpr ⟨i, hv⟩)
  · obtain ⟨i, hi⟩ := List.mem_iff_getElem?.mp s1
    exact ⟨i, a1, hi, e1⟩
  · obtain ⟨i, hi⟩ := List.mem_iff_getElem?.mp s2
    exact ⟨i, a2, hi, e2⟩
  · obtain ⟨i, hi⟩ := List.mem_iff_getElem?.mp s3
    exact ⟨i, a3, hi, e3⟩
  · obtain ⟨i, hi⟩ := List.mem_iff_getElem?.mp s4
    exact ⟨i, a4, hi, e4⟩
  · obtain ⟨b1, b2, _, _⟩ := hall a1 s1
    rw [e1] at b2
    exact b2
  · obtain ⟨_, _, b3, b4⟩ := hall a3 s3
    rw [e3] at b4
    exact b4

/-- Witness of C3: the unit square translated by `(10, 0)`. -/
theorem C3_update_box_tight_witness :
    (squarePoly.LenInv ∧ 1 ≤ squarePoly.NumVerts) ∧
    ∃ box p lx ly ux uy, PolygonShape.update shiftX squarePoly = some (box, p) ∧
      (p.TVerts.len : Int) = squarePoly.NumVerts ∧
      box = ⟨⟨Ext.fin lx, Ext.fin ly⟩, ⟨Ext.fin ux, Ext.fin uy⟩⟩ ∧
      (∀ (i : Nat) (v : Vect ℚ), p.TVerts.index i = some v →
        lx ≤ v.X ∧ v.X ≤ ux ∧ ly ≤ v.Y ∧ v.Y ≤ uy) ∧
      (∃ (i : Nat) (v : Vect ℚ), p.TVerts.index i = some v ∧ v.X = lx) ∧
      (∃ (i : Nat) (v : Vect ℚ), p.TVerts.index i = some v ∧ v.X = ux) ∧
      (∃ (i : Nat) (v : Vect ℚ), p.TVerts.index i = some v ∧ v.Y = ly) ∧
      (∃ (i : Nat) (v : Vect ℚ), p.TVerts.index i = some v ∧ v.Y = uy) ∧
      lx ≤ ux ∧ ly ≤ uy :=
  ⟨⟨lenInv_squarePoly, by decide⟩,
    C3_update_box_tight shiftX squarePoly lenInv_squarePoly (by decide)⟩

/-! ### Point containment and axis projection -/

theorem containsVert_loop_iff (v : Vect K) (l : List (PolygonAxis K)) :
    PolygonShape.ContainsVert.loop v l = true ↔ ∀ axis ∈ l, Dot axis.N v - axis.D ≤ 0 := by
  induction l with
  | nil => simp [PolygonShape.ContainsVert.loop]
  | cons a t ih =>
    simp only [PolygonShape.ContainsVert.loop, List.mem_cons, forall_eq_or_imp]
    by_cases h : Dot a.N v - a.D > 0
    · simp only [if_pos h]
      constructor
      · intro hf
        cases hf
      · intro hc
        exact absurd hc.1 (not_le.mpr h)
    · simp only [if_neg h]
      rw [ih]
      exact ⟨fun ht => ⟨not_lt.mp h, ht⟩, fun hc => hc.2⟩

/-- C4: `ContainsVert(p)` is true exactly when `Dot(axis.N, p) - axis.D <= 0` for every
axis in `TAxes` (non-strict, no tolerance), and `TestPoint(p)` returns the value of
`ContainsVert(p)`. -/
theorem C4_ContainsVert_all_half_planes (poly : PolygonShape K) (p : Vect K) :
    (poly.ContainsVert p = true ↔
      ∀ (i : Nat) (axis : PolygonAxis K), poly.TAxes.index i = some axis →
        Dot axis.N p - axis.D ≤ 0) ∧
    poly.TestPoint p = poly.ContainsVert p := by
  refine ⟨?_, rfl⟩
  unfold PolygonShape.ContainsVert
  rw [containsVert_loop_iff]
  constructor
  · intro h i axis hi
    exact h axis (List.mem_iff_getElem?.mpr ⟨i, hi⟩)
  · intro h axis hmem
    obtain ⟨i, hi⟩ := List.mem_iff_getElem?.mp hmem
    exact h i axis hi

theorem valueOnAxis_loop (verts : Slice (Vect K)) (n : Vect K) (N : Nat) (v0 : Vect K)
    (h0 : verts.elems[0]? = some v0) (hN : 1 ≤ N) (hlen : verts.elems.length = N) :
    ∃ m, forLoop (fun i min => do
        let vi ← verts.index i
        pure (Min.min min (Dot n vi))) 1 N (Dot n v0) = some m ∧
      (∀ (i : Nat) (v : Vect K), verts.elems[i]? = some v → m ≤ Dot n v) ∧
      ∃ (i : Nat) (v : Vect K), verts.elems[i]? = some v ∧ m = Dot n v := by
  obtain ⟨m, hrun, hall, hex⟩ := forLoop_rule (fun i min => do
        let vi ← verts.index i
        pure (Min.min min (Dot n vi)))
    (fun k m => (∀ (i : Nat) (v : Vect K), i < k → verts.elems[i]? = some v → m ≤ Dot n v) ∧
      ∃ (i : Nat) (v : Vect K), verts.elems[i]? = some v ∧ m = Dot n v)
    1 N (Dot n v0) hN
    ⟨fun i v hi hv => by
        have : i = 0 := by omega
        subst this
        rw [h0] at hv
        cases hv
        exact le_refl _, 0, v0, h0, rfl⟩
    (by
      intro k m _ hk ⟨hall, i0, w0, hw0, hm⟩
      have hks : k < verts.elems.length := by omega
      refine ⟨Min.min m (Dot n (verts.elems.get ⟨k, hks⟩)), ?_, ?_, ?_⟩
      · simp [Slice.index, List.getElem?_eq_getElem hks]
      · intro i v hi hv
        by_cases hik : i = k
        · subst hik
          rw [List.getElem?_eq_getElem hks] at hv
          cases hv
          exact min_le_right _ _
        · exact le_trans (min_le_left _ _) (hall i v (by omega) hv)
      · rcases min_choice m (Dot n (verts.elems.get ⟨k, hks⟩)) with h | h
        · exact ⟨i0, w0, hw0, by rw [h, hm]⟩
        · exact ⟨k, _, List.getElem?_eq_getElem hks, h⟩)
  refine ⟨m, hrun, ?_, hex⟩
  intro i v hv
  have hi : i < N := by
    by_contra hc
    rw [List.getElem?_eq_none (by omega)] at hv
    cases hv
  exact hall i v hi hv

/-- C5: on a polygon with `NumVerts >= 1` whose `TVerts` has `NumVerts` entries,
`ValueOnAxis(n, d)` returns the minimum of `Dot(n, TVerts[i])` minus `d`: the result is
`<= Dot(n, TVerts[i]) - d` for every world vertex and equal to it for one of them. -/
theorem C5_ValueOnAxis_min (poly : PolygonShape K) (n : Vect K) (d : K)
    (h1 : 1 ≤ poly.NumVerts) (hlen : (poly.TVerts.len : Int) = poly.NumVerts) :
    ∃ r, poly.ValueOnAxis n d = some r ∧
      (∀ (i : Nat) (v : Vect K), poly.TVerts.index i = some v → r ≤ Dot n v - d) ∧
      ∃ (i : Nat) (v : Vect K), poly.TVerts.index i = some v ∧ r = Dot n v - d := by
  simp only [Slice.len] at hlen
  have h0 : 0 < poly.TVerts.elems.length := by omega
  obtain ⟨m, hrun, hall, i, v, hv, hm⟩ := valueOnAxis_loop poly.TVerts n poly.NumVerts.toNat
    (poly.TVerts.elems.get ⟨0, h0⟩) (List.getElem?_eq_getElem h0) (by omega) (by omega)
  refine ⟨m - d, ?_, ?_, i, v, hv, by rw [hm]⟩
  · simp only [PolygonShape.ValueOnAxis, Slice.index, List.getElem?_eq_getElem h0,
      Option.bind_eq_bind, Option.some_bind, Option.pure_def]
    simp only [Slice.index, Option.bind_eq_bind, Option.pure_def, List.get_eq_getElem] at hrun
    rw [hrun]
    rfl
  · intro j w hw
    exact sub_le_sub_right (hall j w hw) d

/-- Witness of C5: the unit square with its world vertices at the local positions. -/
theorem C5_ValueOnAxis_min_witness :
    (1 ≤ ({ squarePoly with TVerts := squarePoly.Verts } : PolygonShape ℚ).NumVerts ∧
      (({ squarePoly with TVerts := squarePoly.Verts } : PolygonShape ℚ).TVerts.len : Int) =
        ({ squarePoly with TVerts := squarePoly.Verts } : PolygonShape ℚ).NumVerts) ∧
    ∃ r, ({ squarePoly with TVerts := squarePoly.Verts } : PolygonShape ℚ).ValueOnAxis
        ⟨1, 0⟩ 2 = some r ∧
      (∀ (i : Nat) (v : Vect ℚ),
        ({ squarePoly with TVerts := squarePoly.Verts } : PolygonShape ℚ).TVerts.index i =
          some v → r ≤ Dot ⟨1, 0⟩ v - 2) ∧
      ∃ (i : Nat) (v : Vect ℚ),
        ({ squarePoly with TVerts := squarePoly.Verts } : PolygonShape ℚ).TVerts.index i =
          some v ∧ r = Dot ⟨1, 0⟩ v - 2 :=
  ⟨⟨by decide, by decide⟩,
    C5_ValueOnAxis_min { squarePoly with TVerts := squarePoly.Verts } ⟨1, 0⟩ 2
      (by decide) (by decide)⟩

/-! ### Nil and empty vertex sequences, the length invariant -/

/-- C6: with the nil vertex sequence `NewPolygon` returns nil, and `SetVerts` returns with
the polygon exactly as it was (`Verts`, `TVerts`, `Axes`, `TAxes`, `NumVerts`); both log
the error line. -/
theorem C6_nil_vertices_rejected (ops : VectOps K) (V : List (Vect K) → Bool)
    (offset : Vect K) :
    NewPolygon ops V none offset = some (none, ["Error: no vertices passed!"]) ∧
    ∀ poly : PolygonShape K,
      PolygonShape.SetVerts ops V poly VertsArg.nil offset =
        some (poly, ["Error: no vertices passed!"]) :=
  ⟨rfl, fun _ => rfl⟩

/-- C7, the code at the failing input: with the empty non-nil vertex sequence `NewPolygon`
returns a non-nil shape holding the polygon without vertices, and `SetVerts` on the unit
square (4 vertices) cuts `Verts` and `Axes` down to length 0 and sets `NumVerts = 0`. -/
theorem C7_empty_vertices_accepted (V : List (Vect ℚ) → Bool) :
    (∃ log, NewPolygon opsQ V (some []) ⟨0, 0⟩ =
      some (some ⟨ShapeClass.polygon PolygonShape.zero⟩, log)) ∧
    (∃ p log, PolygonShape.SetVerts opsQ V squarePoly (VertsArg.fresh []) ⟨0, 0⟩ = some (p, log) ∧
      p.NumVerts = 0 ∧ p.Verts.len = 0 ∧ p.Axes.len = 0 ∧
      squarePoly.NumVerts = 4 ∧ squarePoly.Verts.len = 4 ∧ squarePoly.Axes.len = 4) := by
  constructor
  · exact ⟨_, rfl⟩
  · exact ⟨_, _, rfl, rfl, rfl, rfl, rfl, rfl, rfl⟩

/-- C8: the length invariant holds for the empty polygon that `NewPolygon` starts from, and
a polygon that satisfies it still does after `SetVerts(verts, offset)` for any `verts`
(nil, shorter, longer or of equal length, with an array of its own or sharing the array of
`poly.Verts`) and after `update(xf)`; both calls return, and after `SetVerts` with non-nil
`verts` `NumVerts = len(verts)`. -/
theorem C8_length_invariant_preserved (ops : VectOps K) (V : List (Vect K) → Bool)
    (poly : PolygonShape K) (hInv : poly.LenInv) :
    (PolygonShape.zero : PolygonShape K).LenInv ∧
    (∀ (verts : VertsArg K) (offset : Vect K), verts.ValidFor poly →
      ∃ p log, PolygonShape.SetVerts ops V poly verts offset = some (p, log) ∧ p.LenInv ∧
        (verts ≠ VertsArg.nil → p.NumVerts = (verts.len : Int))) ∧
    (∀ xf : Transform K, ∃ box p, PolygonShape.update xf poly = some (box, p) ∧ p.LenInv) := by
  refine ⟨lenInv_zero, ?_, ?_⟩
  · intro verts offset hvalid
    obtain ⟨p, log, hp, hpInv, hn⟩ := SetVerts_returns ops V poly verts offset hInv hvalid
    exact ⟨p, log, hp, hpInv, fun h => (hn h).1⟩
  · intro xf
    refine ⟨_, _, update_spec xf poly hInv, ?_⟩
    obtain ⟨i1, i2, i3, i4⟩ := hInv
    simp only [Slice.len] at i1 i2 i3 i4
    simp only [PolygonShape.LenInv, Slice.len, List.length_map]
    exact ⟨i1, i1, i3, i3⟩

/-- Witness of C8: the unit square polygon. -/
theorem C8_length_invariant_preserved_witness :
    squarePoly.LenInv ∧
    ((PolygonShape.zero : PolygonShape ℚ).LenInv ∧
    (∀ (verts : VertsArg ℚ) (offset : Vect ℚ), verts.ValidFor squarePoly →
      ∃ p log, PolygonShape.SetVerts opsQ (fun _ => true) squarePoly verts offset =
          some (p, log) ∧ p.LenInv ∧
        (verts ≠ VertsArg.nil → p.NumVerts = (verts.len : Int))) ∧
    (∀ xf : Transform ℚ,
      ∃ box p, PolygonShape.update xf squarePoly = some (box, p) ∧ p.LenInv)) :=
  ⟨lenInv_squarePoly,
    C8_length_invariant_preserved opsQ (fun _ => true) squarePoly lenInv_squarePoly⟩

/-! ### Square roots on the rationals -/

theorem sqrtQ_squares : sqrtQ 9 = 3 ∧ sqrtQ 16 = 4 ∧ sqrtQ 25 = 5 := by
  have h9 : Nat.sqrt 9 = 3 := by
    rw [show (9 : ℕ) = 3 * 3 from rfl]
    exact Nat.sqrt_eq 3
  have h16 : Nat.sqrt 16 = 4 := by
    rw [show (16 : ℕ) = 4 * 4 from rfl]
    exact Nat.sqrt_eq 4
  have h25 : Nat.sqrt 25 = 5 := by
    rw [show (25 : ℕ) = 5 * 5 from rfl]
    exact Nat.sqrt_eq 5
  refine ⟨?_, ?_, ?_⟩
  · simp [sqrtQ, h9]
  · simp [sqrtQ, h16]
  · simp [sqrtQ, h25]

/-! ### The identity transform -/

theorem transformVect_identity (v : Vect K) : Transform.identity.TransformVect v = v := by
  cases v with
  | mk x y => simp [Transform.TransformVect, Transform.RotateVect, Transform.identity, Add]

theorem rotateVect_identity (v : Vect K) : Transform.identity.RotateVect v = v := by
  cases v with
  | mk x y => simp [Transform.RotateVect, Transform.identity]

/-- C10: for a polygon set by `SetVerts` (any argument that Go accepts, on a receiver
that satisfies the length invariant), `update` with the identity transform returns and
leaves, for every `i < NumVerts`, `TVerts[i] = Verts[i]` and `TAxes[i] = Axes[i]`, normal
and offset. -/
theorem C10_identity_update (ops : VectOps K) (V : List (Vect K) → Bool)
    (poly : PolygonShape K) (verts : VertsArg K) (offset : Vect K) (hInv : poly.LenInv)
    (hvalid : verts.ValidFor poly) :
    ∃ p log box q, PolygonShape.SetVerts ops V poly verts offset = some (p, log) ∧
      PolygonShape.update Transform.identity p = some (box, q) ∧
      ∀ (i : Nat), (i : Int) < p.NumVerts →
        ∃ v a, p.Verts.index i = some v ∧ q.TVerts.index i = some v ∧
          p.Axes.index i = some a ∧ q.TAxes.index i = some a := by
  obtain ⟨p, log, hp, hpInv, _⟩ := SetVerts_returns ops V poly verts offset hInv hvalid
  refine ⟨p, log, _, _, hp, update_spec Transform.identity p hpInv, ?_⟩
  obtain ⟨i1, _, i3, _⟩ := hpInv
  simp only [Slice.len] at i1 i3
  intro i hi
  have hv : i < p.Verts.elems.length := by omega
  have ha : i < p.Axes.elems.length := by omega
  refine ⟨p.Verts.elems.get ⟨i, hv⟩, p.Axes.elems.get ⟨i, ha⟩, ?_, ?_, ?_, ?_⟩
  · simp [Slice.index, List.getElem?_eq_getElem hv]
  · simp [Slice.index, List.getElem?_map, List.getElem?_eq_getElem hv,
      transformVect_identity]
  · simp [Slice.index, List.getElem?_eq_getElem ha]
  · simp only [Slice.index, List.getElem?_map, List.getElem?_eq_getElem ha, Option.map_some',
      rotateVect_identity, List.get_eq_getElem]
    congr 1
    cases p.Axes.elems[i] with
    | mk n d => simp [Dot, Transform.identity]

/-- Witness of C10: the 3-4-5 triangle set on the unit square polygon. -/
theorem C10_identity_update_witness :
    (squarePoly.LenInv ∧ (VertsArg.fresh triangle345).ValidFor squarePoly) ∧
    ∃ p log box q, PolygonShape.SetVerts opsQ (fun _ => true) squarePoly
        (VertsArg.fresh triangle345) ⟨1, 1⟩ = some (p, log) ∧
      PolygonShape.update Transform.identity p = some (box, q) ∧
      ∀ (i : Nat), (i : Int) < p.NumVerts →
        ∃ v a, p.Verts.index i = some v ∧ q.TVerts.index i = some v ∧
          p.Axes.index i = some a ∧ q.TAxes.index i = some a :=
  ⟨⟨lenInv_squarePoly, trivial⟩,
    C10_identity_update opsQ (fun _ => true) squarePoly (VertsArg.fresh triangle345) ⟨1, 1⟩
      lenInv_squarePoly trivial⟩

/-! ### Closed form of `SetVerts` -/

theorem SetVerts_closed (ops : VectOps K) (V : List (Vect K) → Bool) (poly : PolygonShape K)
    (verts : List (Vect K)) (offset : Vect K) (hInv : poly.LenInv) :
    ∃ p, PolygonShape.SetVerts ops V poly (VertsArg.fresh verts) offset =
        some (p, if V verts == false then ["Warning: vertices not valid"] else []) ∧
      p.LenInv ∧ p.NumVerts = (verts.length : Int) ∧
      p.Verts.elems = verts.map (Add offset) ∧
      p.Axes.elems = List.zipWith (fun vi vj =>
        (⟨Normalize ops (ops.Perp (Sub (Add offset vj) (Add offset vi))),
          Dot (Normalize ops (ops.Perp (Sub (Add offset vj) (Add offset vi))))
            (Add offset vi)⟩ : PolygonAxis K)) verts (verts.rotate 1) := by
  obtain ⟨p, hp, h1, h2, h3, h4, h5, h6, h7⟩ := SetVerts_spec ops V poly verts offset hInv
  refine ⟨p, hp, ?_, h1, ?_, ?_⟩
  · simp only [PolygonShape.LenInv, Slice.len, h1, h2, h3, h4, h5, and_self]
  · apply List.ext_getElem?
    intro i
    by_cases hi : i < verts.length
    · rw [h6 i _ (List.getElem?_eq_getElem hi), List.getElem?_map,
        List.getElem?_eq_getElem hi]
      rfl
    · rw [List.getElem?_eq_none (by omega), List.getElem?_eq_none (by simp; omega)]
  · apply List.ext_getElem?
    intro i
    by_cases hi : i < verts.length
    · have hj : (i + 1) % verts.length < verts.length := Nat.mod_lt _ (by omega)
      rw [h7 i _ _ (List.getElem?_eq_getElem hi) (List.getElem?_eq_getElem hj),
        List.getElem?_zipWith, List.getElem?_rotate hi, List.getElem?_eq_getElem hi,
        List.getElem?_eq_getElem hj]
    · rw [List.getElem?_eq_none (by omega), List.getElem?_eq_none (by simp; omega)]

/-! ### The unit square -/

theorem square_axes (sqrt : K → K) (h1 : sqrt 1 = 1) :
    List.zipWith (fun vi vj =>
      (⟨Normalize ⟨perpRight, sqrt⟩ (perpRight (Sub (Add ⟨0, 0⟩ vj) (Add ⟨0, 0⟩ vi))),
        Dot (Normalize ⟨perpRight, sqrt⟩ (perpRight (Sub (Add ⟨0, 0⟩ vj) (Add ⟨0, 0⟩ vi))))
          (Add ⟨0, 0⟩ vi)⟩ : PolygonAxis K))
      [⟨0, 0⟩, ⟨1, 0⟩, ⟨1, 1⟩, ⟨0, 1⟩] ([⟨0, 0⟩, ⟨1, 0⟩, ⟨1, 1⟩, ⟨0, 1⟩].rotate 1) =
    [⟨⟨0, -1⟩, 0⟩, ⟨⟨1, 0⟩, 1⟩, ⟨⟨0, 1⟩, 1⟩, ⟨⟨-1, 0⟩, 0⟩] := by
  have hr : ([⟨0, 0⟩, ⟨1, 0⟩, ⟨1, 1⟩, ⟨0, 1⟩] : List (Vect K)).rotate 1 =
      [⟨1, 0⟩, ⟨1, 1⟩, ⟨0, 1⟩, ⟨0, 0⟩] := rfl
  rw [hr]
  simp [Normalize, perpRight, Sub, Add, Dot, h1]

theorem identity_axes (l : List (PolygonAxis K)) :
    l.map (fun s => (⟨Transform.identity.RotateVect s.N,
      Dot Transform.identity.Position (Transform.identity.RotateVect s.N) + s.D⟩ :
        PolygonAxis K)) = l := by
  have h : (fun s : PolygonAxis K => (⟨Transform.identity.RotateVect s.N,
      Dot Transform.identity.Position (Transform.identity.RotateVect s.N) + s.D⟩ :
        PolygonAxis K)) = id := by
    funext s
    cases s with
    | mk n d =>
      simp only [rotateVect_identity]
      simp [Dot, Transform.identity]
  rw [h, List.map_id]

/-- C11: with `Perp` the clockwise quarter turn `(x, y) ↦ (y, -x)` and a square root with
`sqrt 1 = 1`, the polygon that `NewPolygon` builds from `(0,0), (1,0), (1,1), (0,1)` with
offset `(0,0)` has, after `update` with the identity transform, the outward edge normals
`(0,-1), (1,0), (0,1), (-1,0)` with offsets `0, 1, 1, 0` as world axes;
`ContainsVert((1/2,1/2))` is true, `ContainsVert((2,2))` is false and `ContainsVert((1,1))`
is true. -/
theorem C11_unit_square_containment (sqrt : K → K) (V : List (Vect K) → Bool)
    (h1 : sqrt 1 = 1) :
    ∃ p log box q,
      NewPolygon ⟨perpRight, sqrt⟩ V (some [⟨0, 0⟩, ⟨1, 0⟩, ⟨1, 1⟩, ⟨0, 1⟩]) ⟨0, 0⟩ =
        some (some ⟨ShapeClass.polygon p⟩, log) ∧
      PolygonShape.update Transform.identity p = some (box, q) ∧
      q.TAxes.elems = [⟨⟨0, -1⟩, 0⟩, ⟨⟨1, 0⟩, 1⟩, ⟨⟨0, 1⟩, 1⟩, ⟨⟨-1, 0⟩, 0⟩] ∧
      q.ContainsVert ⟨1 / 2, 1 / 2⟩ = true ∧
      q.ContainsVert ⟨2, 2⟩ = false ∧
      q.ContainsVert ⟨1, 1⟩ = true := by
  obtain ⟨p, hp, hpInv, _, _, hax⟩ := SetVerts_closed ⟨perpRight, sqrt⟩ V PolygonShape.zero
    [⟨0, 0⟩, ⟨1, 0⟩, ⟨1, 1⟩, ⟨0, 1⟩] ⟨0, 0⟩ lenInv_zero
  rw [square_axes sqrt h1] at hax
  have hnew : NewPolygon ⟨perpRight, sqrt⟩ V (some [⟨0, 0⟩, ⟨1, 0⟩, ⟨1, 1⟩, ⟨0, 1⟩]) ⟨0, 0⟩ =
      some (some ⟨ShapeClass.polygon p⟩,
        if V [⟨0, 0⟩, ⟨1, 0⟩, ⟨1, 1⟩, ⟨0, 1⟩] == false then ["Warning: vertices not valid"]
        else []) := by
    simp [NewPolygon, hp]
  refine ⟨p, _, _, _, hnew, update_spec Transform.identity p hpInv, ?_, ?_, ?_, ?_⟩
  · simp only [identity_axes, hax]
  · simp only [PolygonShape.ContainsVert, identity_axes, hax]
    norm_num [PolygonShape.ContainsVert.loop, Dot]
  · simp only [PolygonShape.ContainsVert, identity_axes, hax]
    norm_num [PolygonShape.ContainsVert.loop, Dot]
  · simp only [PolygonShape.ContainsVert, identity_axes, hax]
    norm_num [PolygonShape.ContainsVert.loop, Dot]

theorem sqrtQ_one : sqrtQ 1 = 1 := by
  simp [sqrtQ]

/-- Witness of C11: the rationals with `sqrtQ`. -/
theorem C11_unit_square_containment_witness :
    sqrtQ 1 = 1 ∧
    ∃ p log box q,
      NewPolygon ⟨perpRight, sqrtQ⟩ (fun _ => true)
          (some [⟨0, 0⟩, ⟨1, 0⟩, ⟨1, 1⟩, ⟨0, 1⟩]) ⟨0, 0⟩ =
        some (some ⟨ShapeClass.polygon p⟩, log) ∧
      PolygonShape.update Transform.identity p = some (box, q) ∧
      q.TAxes.elems = [⟨⟨0, -1⟩, 0⟩, ⟨⟨1, 0⟩, 1⟩, ⟨⟨0, 1⟩, 1⟩, ⟨⟨-1, 0⟩, 0⟩] ∧
      q.ContainsVert ⟨1 / 2, 1 / 2⟩ = true ∧
      q.ContainsVert ⟨2, 2⟩ = false ∧
      q.ContainsVert ⟨1, 1⟩ = true :=
  ⟨sqrtQ_one, C11_unit_square_containment sqrtQ (fun _ => true) sqrtQ_one⟩

theorem perpLeft_square_excludes_centre (sqrt : K → K) (V : List (Vect K) → Bool)
    (h1 : sqrt 1 = 1) :
    ∃ p log box q,
      NewPolygon ⟨perpLeft, sqrt⟩ V (some [⟨0, 0⟩, ⟨1, 0⟩, ⟨1, 1⟩, ⟨0, 1⟩]) ⟨0, 0⟩ =
        some (some ⟨ShapeClass.polygon p⟩, log) ∧
      PolygonShape.update Transform.identity p = some (box, q) ∧
      q.ContainsVert ⟨1 / 2, 1 / 2⟩ = false := by
  obtain ⟨p, hp, hpInv, _, _, hax⟩ := SetVerts_closed ⟨perpLeft, sqrt⟩ V PolygonShape.zero
    [⟨0, 0⟩, ⟨1, 0⟩, ⟨1, 1⟩, ⟨0, 1⟩] ⟨0, 0⟩ lenInv_zero
  have hr : ([⟨0, 0⟩, ⟨1, 0⟩, ⟨1, 1⟩, ⟨0, 1⟩] : List (Vect K)).rotate 1 =
      [⟨1, 0⟩, ⟨1, 1⟩, ⟨0, 1⟩, ⟨0, 0⟩] := rfl
  rw [hr] at hax
  simp only [List.zipWith] at hax
  have hnew : NewPolygon ⟨perpLeft, sqrt⟩ V (some [⟨0, 0⟩, ⟨1, 0⟩, ⟨1, 1⟩, ⟨0, 1⟩]) ⟨0, 0⟩ =
      some (some ⟨ShapeClass.polygon p⟩,
        if V [⟨0, 0⟩, ⟨1, 0⟩, ⟨1, 1⟩, ⟨0, 1⟩] == false then ["Warning: vertices not valid"]
        else []) := by
    simp [NewPolygon, hp]
  refine ⟨p, _, _, _, hnew, update_spec Transform.identity p hpInv, ?_⟩
  simp only [PolygonShape.ContainsVert, identity_axes, hax]
  norm_num [PolygonShape.ContainsVert.loop, Dot, Normalize, perpLeft, Sub, Add, h1]

/-! ### Translation of the bounding box -/

theorem transformVect_shift (pos v : Vect K) :
    (⟨pos, ⟨1, 0⟩⟩ : Transform K).TransformVect v = ⟨pos.X + v.X, pos.Y + v.Y⟩ := by
  simp [Transform.TransformVect, Transform.RotateVect, Add]

/-- C12: on a polygon with at least one vertex (a polygon of the data model: its five
fields satisfy the length invariant, as every polygon that `NewPolygon`, `SetVerts` and
`update` leave does), `update` with zero rotation (`C = 1`, `S = 0`) and position `pos`
returns the bounding box of the local vertices translated by `pos`: with `lx, ly, ux, uy` the
minima and maxima of the coordinates of `Verts`, `Lower = (lx, ly) + pos` and
`Upper = (ux, uy) + pos`.  The unit square set with offset `(0,0)` and updated at position
`(10,0)` yields `Lower = (10,0)`, `Upper = (11,1)`. -/
theorem C12_translated_box (poly : PolygonShape K) (pos : Vect K)
    (hInv : poly.LenInv) (h1 : 1 ≤ poly.NumVerts) :
    (∃ box q lx ly ux uy, PolygonShape.update ⟨pos, ⟨1, 0⟩⟩ poly = some (box, q) ∧
      (∀ (i : Nat) (v : Vect K), poly.Verts.index i = some v →
        lx ≤ v.X ∧ v.X ≤ ux ∧ ly ≤ v.Y ∧ v.Y ≤ uy) ∧
      (∃ (i : Nat) (v : Vect K), poly.Verts.index i = some v ∧ v.X = lx) ∧
      (∃ (i : Nat) (v : Vect K), poly.Verts.index i = some v ∧ v.X = ux) ∧
      (∃ (i : Nat) (v : Vect K), poly.Verts.index i = some v ∧ v.Y = ly) ∧
      (∃ (i : Nat) (v : Vect K), poly.Verts.index i = some v ∧ v.Y = uy) ∧
      box = ⟨⟨Ext.fin (lx + pos.X), Ext.fin (ly + pos.Y)⟩,
        ⟨Ext.fin (ux + pos.X), Ext.fin (uy + pos.Y)⟩⟩) ∧
    (∀ (ops : VectOps ℚ) (V : List (Vect ℚ) → Bool), ∃ p log box q,
      PolygonShape.SetVerts ops V PolygonShape.zero (VertsArg.fresh unitSquare) ⟨0, 0⟩ =
        some (p, log) ∧
      PolygonShape.update shiftX p = some (box, q) ∧
      box = ⟨⟨Ext.fin 10, Ext.fin 0⟩, ⟨Ext.fin 11, Ext.fin 1⟩⟩) := by
  constructor
  · have hne : poly.Verts.elems.map (⟨pos, ⟨1, 0⟩⟩ : Transform K).TransformVect ≠ [] := by
      obtain ⟨i1, _, _, _⟩ := hInv
      simp only [Slice.len] at i1
      intro h
      have h0 : (poly.Verts.elems.map
          (⟨pos, ⟨1, 0⟩⟩ : Transform K).TransformVect).length = 0 := by rw [h]; rfl
      rw [List.length_map] at h0
      omega
    obtain ⟨lx, ly, ux, uy, hb, hall, ⟨a1, s1, e1⟩, ⟨a2, s2, e2⟩, ⟨a3, s3, e3⟩,
      ⟨a4, s4, e4⟩⟩ := foldl_grow_seed_tight _ hne
    have back : ∀ w : Vect K,
        w ∈ poly.Verts.elems.map (⟨pos, ⟨1, 0⟩⟩ : Transform K).TransformVect →
        ∃ (i : Nat) (v : Vect K), poly.Verts.index i = some v ∧
          w.X = pos.X + v.X ∧ w.Y = pos.Y + v.Y := by
      intro w hw
      obtain ⟨v, hv, rfl⟩ := List.mem_map.mp hw
      obtain ⟨i, hi⟩ := List.mem_iff_getElem?.mp hv
      exact ⟨i, v, hi, by rw [transformVect_shift], by rw [transformVect_shift]⟩
    refine ⟨_, _, lx - pos.X, ly - pos.Y, ux - pos.X, uy - pos.Y,
      update_spec _ poly hInv, ?_, ?_, ?_, ?_, ?_, ?_⟩
    · intro i v hv
      have hm : (⟨pos, ⟨1, 0⟩⟩ : Transform K).TransformVect v ∈
          poly.Verts.elems.map (⟨pos, ⟨1, 0⟩⟩ : Transform K).TransformVect :=
        List.mem_map.mpr ⟨v, List.mem_iff_getElem?.mpr ⟨i, hv⟩, rfl⟩
      obtain ⟨b1, b2, b3, b4⟩ := hall _ hm
      rw [transformVect_shift] at b1 b2 b3 b4
      simp only at b1 b2 b3 b4
      refine ⟨?_, ?_, ?_, ?_⟩ <;> linarith
    · obtain ⟨i, v, hv, hx, _⟩ := back a1 s1
      exact ⟨i, v, hv, by linarith⟩
    · obtain ⟨i, v, hv, hx, _⟩ := back a2 s2
      exact ⟨i, v, hv, by linarith⟩
    · obtain ⟨i, v, hv, _, hy⟩ := back a3 s3
      exact ⟨i, v, hv, by linarith⟩
    · obtain ⟨i, v, hv, _, hy⟩ := back a4 s4
      exact ⟨i, v, hv, by linarith⟩
    · rw [hb]
      simp only [sub_add_cancel]
  · intro ops V
    obtain ⟨p, hp, hpInv, _, hvs, _⟩ :=
      SetVerts_closed ops V PolygonShape.zero unitSquare ⟨0, 0⟩ lenInv_zero
    refine ⟨p, _, _, _, hp, update_spec shiftX p hpInv, ?_⟩
    rw [hvs]
    simp only [unitSquare, shiftX, List.map, transformVect_shift, Add, List.foldl,
      AABB.grow, AABB.seed, Ext.min, Ext.max]
    norm_num

/-- Witness of C12: the unit square polygon moved by `(10, 0)`. -/
theorem C12_translated_box_witness :
    (squarePoly.LenInv ∧ 1 ≤ squarePoly.NumVerts) ∧
    ((∃ box q lx ly ux uy,
      PolygonShape.update ⟨(⟨10, 0⟩ : Vect ℚ), ⟨1, 0⟩⟩ squarePoly = some (box, q) ∧
      (∀ (i : Nat) (v : Vect ℚ), squarePoly.Verts.index i = some v →
        lx ≤ v.X ∧ v.X ≤ ux ∧ ly ≤ v.Y ∧ v.Y ≤ uy) ∧
      (∃ (i : Nat) (v : Vect ℚ), squarePoly.Verts.index i = some v ∧ v.X = lx) ∧
      (∃ (i : Nat) (v : Vect ℚ), squarePoly.Verts.index i = some v ∧ v.X = ux) ∧
      (∃ (i : Nat) (v : Vect ℚ), squarePoly.Verts.index i = some v ∧ v.Y = ly) ∧
      (∃ (i : Nat) (v : Vect ℚ), squarePoly.Verts.index i = some v ∧ v.Y = uy) ∧
      box = ⟨⟨Ext.fin (lx + (⟨10, 0⟩ : Vect ℚ).X), Ext.fin (ly + (⟨10, 0⟩ : Vect ℚ).Y)⟩,
        ⟨Ext.fin (ux + (⟨10, 0⟩ : Vect ℚ).X), Ext.fin (uy + (⟨10, 0⟩ : Vect ℚ).Y)⟩⟩) ∧
    (∀ (ops : VectOps ℚ) (V : List (Vect ℚ) → Bool), ∃ p log box q,
      PolygonShape.SetVerts ops V PolygonShape.zero (VertsArg.fresh unitSquare) ⟨0, 0⟩ =
        some (p, log) ∧
      PolygonShape.update shiftX p = some (box, q) ∧
      box = ⟨⟨Ext.fin 10, Ext.fin 0⟩, ⟨Ext.fin 11, Ext.fin 1⟩⟩)) :=
  ⟨⟨lenInv_squarePoly, by decide⟩,
    C12_translated_box squarePoly ⟨10, 0⟩ lenInv_squarePoly (by decide)⟩

/-! ### Partial containment -/

theorem containsVertPartial_loop_iff (v n : Vect K) (l : List (PolygonAxis K)) :
    PolygonShape.ContainsVertPartial.loop v n l = true ↔
      ∀ axis ∈ l, ¬ Dot axis.N n < 0 → Dot axis.N v - axis.D ≤ 0 := by
  induction l with
  | nil => simp [PolygonShape.ContainsVertPartial.loop]
  | cons a t ih =>
    simp only [PolygonShape.ContainsVertPartial.loop, List.mem_cons, forall_eq_or_imp]
    by_cases hs : Dot a.N n < 0
    · simp only [if_pos hs]
      rw [ih]
      exact ⟨fun ht => ⟨fun hc => absurd hs hc, ht⟩, fun hc => hc.2⟩
    · simp only [if_neg hs]
      by_cases h : Dot a.N v - a.D > 0
      · simp only [if_pos h]
        constructor
        · intro hf
          cases hf
        · intro hc
          exact absurd (hc.1 hs) (not_le.mpr h)
      · simp only [if_neg h]
        rw [ih]
        exact ⟨fun ht => ⟨fun _ => not_lt.mp h, ht⟩, fun hc => hc.2⟩

/-- C13: `ContainsVertPartial(p, n)` is true exactly when `Dot(axis.N, p) - axis.D <= 0`
for every axis of `TAxes` that is not skipped, an axis being skipped when
`Dot(axis.N, n) < 0`; hence whenever `ContainsVert(p)` is true, `ContainsVertPartial(p, n)`
is true, for every polygon, point and reference normal. -/
theorem C13_ContainsVertPartial_superset (poly : PolygonShape K) (p n : Vect K) :
    (poly.ContainsVertPartial p n = true ↔
      ∀ (i : Nat) (axis : PolygonAxis K), poly.TAxes.index i = some axis →
        ¬ Dot axis.N n < 0 → Dot axis.N p - axis.D ≤ 0) ∧
    (poly.ContainsVert p = true → poly.ContainsVertPartial p n = true) := by
  constructor
  · unfold PolygonShape.ContainsVertPartial
    rw [containsVertPartial_loop_iff]
    constructor
    · intro h i axis hi
      exact h axis (List.mem_iff_getElem?.mpr ⟨i, hi⟩)
    · intro h axis hmem
      obtain ⟨i, hi⟩ := List.mem_iff_getElem?.mp hmem
      exact h i axis hi
  · unfold PolygonShape.ContainsVertPartial PolygonShape.ContainsVert
    rw [containsVertPartial_loop_iff, containsVert_loop_iff]
    intro h axis hmem _
    exact h axis hmem

/-- Witness of C13: the centre of the unit square, with reference normal `(1, 0)`. -/
theorem C13_ContainsVertPartial_superset_witness :
    squareWorld.ContainsVert ⟨1 / 2, 1 / 2⟩ = true ∧
    squareWorld.ContainsVertPartial ⟨1 / 2, 1 / 2⟩ ⟨1, 0⟩ = true :=
  have h : squareWorld.ContainsVert ⟨1 / 2, 1 / 2⟩ = true := by
    norm_num [PolygonShape.ContainsVert, PolygonShape.ContainsVert.loop, squareWorld, Dot]
  ⟨h, (C13_ContainsVertPartial_superset squareWorld ⟨1 / 2, 1 / 2⟩ ⟨1, 0⟩).2 h⟩

/-! ### Segments -/

theorem sqrtQ_sixteen : sqrtQ 16 = 4 := sqrtQ_squares.2.1

/-- C14, the code on every segment and at the failing input: `Update` never assigns the
field `N`; line 47 stores `Perp(Normalize(B - A))` in the endpoint field `B`, and `Tn` is
the rotation of the old `N`.  For the segment of `NewSegmentShape((0,0), (4,0), 1)` and
the identity transform, `N` and `Tn` are `(0,0)` after `Update`, while
`Perp(Normalize(B - A))` is `(0,1)`. -/
theorem C14_Update_does_not_set_N (ops : VectOps K) (xf : Transform K)
    (seg : SegmentShape K) :
    ((SegmentShape.Update ops xf seg).2.N = seg.N ∧
      (SegmentShape.Update ops xf seg).2.Tn = xf.RotateVect seg.N ∧
      (SegmentShape.Update ops xf seg).2.B = ops.Perp (Normalize ops (Sub seg.B seg.A))) ∧
    (NewSegmentShape (⟨0, 0⟩ : Vect ℚ) ⟨4, 0⟩ 1 = ⟨ShapeClass.segment segment04⟩ ∧
      (SegmentShape.Update opsQ Transform.identity segment04).2.N = ⟨0, 0⟩ ∧
      (SegmentShape.Update opsQ Transform.identity segment04).2.Tn = ⟨0, 0⟩ ∧
      opsQ.Perp (Normalize opsQ (Sub segment04.B segment04.A)) = ⟨0, 1⟩) := by
  refine ⟨⟨rfl, rfl, rfl⟩, rfl, rfl, ?_, ?_⟩
  · simp [SegmentShape.Update, segment04, Transform.RotateVect, Transform.identity]
  · norm_num [segment04, Normalize, Sub, Dot, opsQ, perpLeft, sqrtQ_sixteen]

/-- C15: for the segment of `NewSegmentShape(a, b, r)` and every transform `xf`, `Update`
sets `Ta = TransformVect(xf, a)`, `Tb = TransformVect(xf, b)` and returns the box with
`Lower = min(Ta, Tb) - (r, r)` and `Upper = max(Ta, Tb) + (r, r)` component-wise (the
methods `Sub` and `Add` of `Vect` taken to work in place); the segment `(0,0)-(4,0)` with
radius 1 under the identity transform yields `Lower = (-1,-1)`, `Upper = (5,1)`. -/
theorem C15_segment_first_Update (ops : VectOps K) (a b : Vect K) (r : K)
    (xf : Transform K) :
    (∃ seg, NewSegmentShape a b r = ⟨ShapeClass.segment seg⟩ ∧
      (SegmentShape.Update ops xf seg).2.Ta = xf.TransformVect a ∧
      (SegmentShape.Update ops xf seg).2.Tb = xf.TransformVect b ∧
      (SegmentShape.Update ops xf seg).1 =
        ⟨⟨Ext.fin (min (xf.TransformVect a).X (xf.TransformVect b).X - r),
            Ext.fin (min (xf.TransformVect a).Y (xf.TransformVect b).Y - r)⟩,
          ⟨Ext.fin (max (xf.TransformVect a).X (xf.TransformVect b).X + r),
            Ext.fin (max (xf.TransformVect a).Y (xf.TransformVect b).Y + r)⟩⟩) ∧
    (∃ seg, NewSegmentShape (⟨0, 0⟩ : Vect K) ⟨4, 0⟩ 1 = ⟨ShapeClass.segment seg⟩ ∧
      (SegmentShape.Update ops Transform.identity seg).1 =
        ⟨⟨Ext.fin (-1), Ext.fin (-1)⟩, ⟨Ext.fin 5, Ext.fin 1⟩⟩) := by
  refine ⟨⟨_, rfl, rfl, rfl, rfl⟩, _, rfl, ?_⟩
  simp only [SegmentShape.Update, transformVect_identity, Vect.Min, Vect.Max, Vect.Sub,
    Vect.Add, Vect.toExt]
  norm_num

/-- C16, as stated, fails: for the segment of `NewSegmentShape((0,0), (0,0), -1)` and the
identity transform `Update` returns `Lower = (1,1)` and `Upper = (-1,-1)`. -/
theorem C16_segment_box_counterexample :
    NewSegmentShape (⟨0, 0⟩ : Vect ℚ) ⟨0, 0⟩ (-1) = ⟨ShapeClass.segment segmentNegative⟩ ∧
    (SegmentShape.Update opsQ Transform.identity segmentNegative).1 =
      ⟨⟨Ext.fin 1, Ext.fin 1⟩, ⟨Ext.fin (-1), Ext.fin (-1)⟩⟩ ∧
    ¬ ((1 : ℚ) ≤ -1) := by
  refine ⟨rfl, ?_, by norm_num⟩
  simp only [SegmentShape.Update, transformVect_identity, Vect.Min, Vect.Max, Vect.Sub,
    Vect.Add, Vect.toExt, segmentNegative]
  norm_num

/-- C16, amended: for every segment with `Radius >= 0` (any endpoints) and every
transform, the box returned by `Update` is finite with `Lower.X <= Upper.X` and
`Lower.Y <= Upper.Y`. -/
theorem C16_segment_box_ordered (ops : VectOps K) (xf : Transform K) (seg : SegmentShape K)
    (hr : 0 ≤ seg.Radius) :
    ∃ lx ly ux uy : K,
      (SegmentShape.Update ops xf seg).1 =
        ⟨⟨Ext.fin lx, Ext.fin ly⟩, ⟨Ext.fin ux, Ext.fin uy⟩⟩ ∧
      lx ≤ ux ∧ ly ≤ uy := by
  refine ⟨min (xf.TransformVect seg.A).X (xf.TransformVect seg.B).X - seg.Radius,
    min (xf.TransformVect seg.A).Y (xf.TransformVect seg.B).Y - seg.Radius,
    max (xf.TransformVect seg.A).X (xf.TransformVect seg.B).X + seg.Radius,
    max (xf.TransformVect seg.A).Y (xf.TransformVect seg.B).Y + seg.Radius, rfl, ?_, ?_⟩
  · have h := min_le_max (a := (xf.TransformVect seg.A).X) (b := (xf.TransformVect seg.B).X)
    linarith
  · have h := min_le_max (a := (xf.TransformVect seg.A).Y) (b := (xf.TransformVect seg.B).Y)
    linarith

/-- Witness of C16 (amended): the segment `(0,0)-(4,0)` with radius 1. -/
theorem C16_segment_box_ordered_witness :
    (0 : ℚ) ≤ segment04.Radius ∧
    ∃ lx ly ux uy : ℚ,
      (SegmentShape.Update opsQ turn345 segment04).1 =
        ⟨⟨Ext.fin lx, Ext.fin ly⟩, ⟨Ext.fin ux, Ext.fin uy⟩⟩ ∧
      lx ≤ ux ∧ ly ≤ uy :=
  have h : (0 : ℚ) ≤ segment04.Radius := by norm_num [segment04]
  ⟨h, C16_segment_box_ordered opsQ turn345 segment04 h⟩

/-- C19, the code on every segment and at the failing input: `Update` keeps `A` and
`Radius` but overwrites `B` with `Perp(Normalize(B - A))`.  For the segment of
`NewSegmentShape((0,0), (4,0), 1)` and the identity transform, the first `Update` returns
`Tb = (4,0)` and the box `(-1,-1), (5,1)` and leaves `B = (0,1)`; the second `Update` with
the same transform returns `Tb = (0,1)` and the box `(-1,-1), (1,2)`. -/
theorem C19_Update_overwrites_B (ops : VectOps K) (xf : Transform K)
    (seg : SegmentShape K) :
    ((SegmentShape.Update ops xf seg).2.A = seg.A ∧
      (SegmentShape.Update ops xf seg).2.Radius = seg.Radius ∧
      (SegmentShape.Update ops xf seg).2.B = ops.Perp (Normalize ops (Sub seg.B seg.A))) ∧
    (NewSegmentShape (⟨0, 0⟩ : Vect ℚ) ⟨4, 0⟩ 1 = ⟨ShapeClass.segment segment04⟩ ∧
      (SegmentShape.Update opsQ Transform.identity segment04).2.B = ⟨0, 1⟩ ∧
      (SegmentShape.Update opsQ Transform.identity segment04).2.Tb = ⟨4, 0⟩ ∧
      (SegmentShape.Update opsQ Transform.identity segment04).1 =
        ⟨⟨Ext.fin (-1), Ext.fin (-1)⟩, ⟨Ext.fin 5, Ext.fin 1⟩⟩ ∧
      (SegmentShape.Update opsQ Transform.identity
        (SegmentShape.Update opsQ Transform.identity segment04).2).2.Tb = ⟨0, 1⟩ ∧
      (SegmentShape.Update opsQ Transform.identity
        (SegmentShape.Update opsQ Transform.identity segment04).2).1 =
        ⟨⟨Ext.fin (-1), Ext.fin (-1)⟩, ⟨Ext.fin 1, Ext.fin 2⟩⟩) := by
  have hB : (SegmentShape.Update opsQ Transform.identity segment04).2.B = ⟨0, 1⟩ := by
    norm_num [SegmentShape.Update, segment04, Normalize, Sub, Dot, opsQ, perpLeft,
      sqrtQ_sixteen]
  have hA : (SegmentShape.Update opsQ Transform.identity segment04).2.A = ⟨0, 0⟩ := rfl
  have hR : (SegmentShape.Update opsQ Transform.identity segment04).2.Radius = 1 := rfl
  refine ⟨⟨rfl, rfl, rfl⟩, rfl, hB, ?_, ?_, ?_, ?_⟩
  · simp [SegmentShape.Update, transformVect_identity, segment04]
  · simp only [SegmentShape.Update, transformVect_identity, Vect.Min, Vect.Max, Vect.Sub,
      Vect.Add, Vect.toExt, segment04]
    norm_num
  · rw [show (SegmentShape.Update opsQ Transform.identity
        (SegmentShape.Update opsQ Transform.identity segment04).2).2.Tb =
        Transform.identity.TransformVect
          (SegmentShape.Update opsQ Transform.identity segment04).2.B from rfl,
      transformVect_identity, hB]
  · rw [show (SegmentShape.Update opsQ Transform.identity
        (SegmentShape.Update opsQ Transform.identity segment04).2).1 =
        ⟨((Vect.Min (Transform.identity.TransformVect
              (SegmentShape.Update opsQ Transform.identity segment04).2.A)
            (Transform.identity.TransformVect
              (SegmentShape.Update opsQ Transform.identity segment04).2.B)).Sub
            ⟨(SegmentShape.Update opsQ Transform.identity segment04).2.Radius,
              (SegmentShape.Update opsQ Transform.identity segment04).2.Radius⟩).toExt,
          ((Vect.Max (Transform.identity.TransformVect
              (SegmentShape.Update opsQ Transform.identity segment04).2.A)
            (Transform.identity.TransformVect
              (SegmentShape.Update opsQ Transform.identity segment04).2.B)).Add
            ⟨(SegmentShape.Update opsQ Transform.identity segment04).2.Radius,
              (SegmentShape.Update opsQ Transform.identity segment04).2.Radius⟩).toExt⟩
        from rfl, transformVect_identity, transformVect_identity, hB, hA, hR]
    simp only [Vect.Min, Vect.Max, Vect.Sub, Vect.Add, Vect.toExt]
    norm_num

/-! ### Validation -/

theorem SetVerts_log (ops : VectOps K) (V : List (Vect K) → Bool) (poly : PolygonShape K)
    (verts : List (Vect K)) (offset : Vect K) :
    PolygonShape.SetVerts ops V poly (VertsArg.fresh verts) offset =
      (PolygonShape.SetVerts ops (fun _ => true) poly (VertsArg.fresh verts) offset).map
        (fun r => (r.1, if V verts == false then ["Warning: vertices not valid"] else [])) := by
  simp only [PolygonShape.SetVerts, VertsArg.contents, Option.bind_eq_bind, Option.pure_def]
  split_ifs with h1 h2 <;> simp [Option.map_bind, Function.comp_def]

theorem SetVerts_log_shared (ops : VectOps K) (V : List (Vect K) → Bool)
    (poly : PolygonShape K) (lo n : Nat) (offset : Vect K) :
    PolygonShape.SetVerts ops V poly (VertsArg.shared lo n) offset =
      (PolygonShape.SetVerts ops (fun _ => true) poly (VertsArg.shared lo n) offset).map
        (fun r => (r.1,
          if V ((VertsArg.shared lo n : VertsArg K).contents poly) == false then
            ["Warning: vertices not valid"] else [])) := by
  simp only [PolygonShape.SetVerts, VertsArg.contents, Option.bind_eq_bind, Option.pure_def]
  split_ifs with h1 h2 <;> simp [Option.map_bind, Function.comp_def]

/-- C17: for every vertex sequence, with an array of its own or sharing the array of
`poly.Verts`, the polygon that `SetVerts` leaves (or its panic) is the same for any two
validators, so it does not depend on the result of `ValidatePolygon`; `NewPolygon` returns
a non-nil shape whose polygon is the one returned when validation succeeds, and only the
logged warning tells the two cases apart. -/
theorem C17_validation_not_decisive (ops : VectOps K) (V W : List (Vect K) → Bool)
    (poly : PolygonShape K) (verts : List (Vect K)) (offset : Vect K) :
    (∀ arg : VertsArg K,
      (PolygonShape.SetVerts ops V poly arg offset).map Prod.fst =
        (PolygonShape.SetVerts ops W poly arg offset).map Prod.fst) ∧
    ∃ p, NewPolygon ops V (some verts) offset =
        some (some ⟨ShapeClass.polygon p⟩,
          if V verts == false then ["Warning: vertices not valid"] else []) ∧
      NewPolygon ops (fun _ => true) (some verts) offset =
        some (some ⟨ShapeClass.polygon p⟩, []) := by
  constructor
  · intro arg
    cases arg with
    | nil => rfl
    | fresh l =>
      rw [SetVerts_log ops V, SetVerts_log ops W]
      simp [Option.map_map, Function.comp_def]
    | shared lo n =>
      rw [SetVerts_log_shared ops V, SetVerts_log_shared ops W]
      simp [Option.map_map, Function.comp_def]
  · obtain ⟨p, hp, _⟩ :=
      SetVerts_closed ops (fun _ => true) PolygonShape.zero verts offset lenInv_zero
    have hp2 : PolygonShape.SetVerts ops (fun _ => true) PolygonShape.zero
        (VertsArg.fresh verts) offset = some (p, []) := by
      rw [hp]
      simp
    refine ⟨p, ?_, ?_⟩
    · simp only [NewPolygon, SetVerts_log ops V, hp2, Option.map_some', Option.bind_eq_bind,
        Option.some_bind, Option.pure_def]
    · simp only [NewPolygon, hp2, Option.bind_eq_bind, Option.some_bind, Option.pure_def]

/-! ### Rigid transforms -/

theorem rotate_dot (xf : Transform K) (a b : Vect K)
    (hRigid : xf.Rotation.C * xf.Rotation.C + xf.Rotation.S * xf.Rotation.S = 1) :
    Dot (xf.RotateVect a) (xf.RotateVect b) = Dot a b := by
  have e : Dot (xf.RotateVect a) (xf.RotateVect b) =
      (xf.Rotation.C * xf.Rotation.C + xf.Rotation.S * xf.Rotation.S) * Dot a b := by
    simp only [Transform.RotateVect, Dot]
    ring
  rw [e, hRigid, one_mul]

theorem world_offset (xf : Transform K) (n v : Vect K)
    (hRigid : xf.Rotation.C * xf.Rotation.C + xf.Rotation.S * xf.Rotation.S = 1) :
    Dot (xf.RotateVect n) (xf.TransformVect v) = Dot xf.Position (xf.RotateVect n) + Dot n v := by
  have e : Dot (xf.RotateVect n) (xf.TransformVect v) =
      Dot xf.Position (xf.RotateVect n) + Dot (xf.RotateVect n) (xf.RotateVect v) := by
    simp only [Transform.TransformVect, Add, Dot]
    ring
  rw [e, rotate_dot xf n v hRigid]

theorem normalize_perp_orth (ops : VectOps K) (hPerp : ∀ v, Dot (ops.Perp v) v = 0)
    (e : Vect K) : Dot (Normalize ops (ops.Perp e)) e = 0 := by
  have h := hPerp e
  have e1 : Dot (Normalize ops (ops.Perp e)) e =
      (1 / ops.Sqrt (Dot (ops.Perp e) (ops.Perp e))) * Dot (ops.Perp e) e := by
    simp only [Normalize, Dot]
    ring
  rw [e1, h, mul_zero]

theorem dot_edge_end (n v w : Vect K) (h : Dot n (Sub w v) = 0) : Dot n w = Dot n v := by
  simp only [Dot, Sub] at h ⊢
  linarith

/-- For an argument with an array of its own: after `SetVerts`
`Axes[i].D = Dot(Axes[i].N, Verts[i])`, after a following `update` with a rigid transform
`TAxes[i].D = Dot(TAxes[i].N, TVerts[i])`, and, `Perp(v)` being perpendicular to `v`, the
end vertex of an edge lies on the same line:
`TAxes[i].D = Dot(TAxes[i].N, TVerts[(i+1) mod n])`. -/
theorem axis_offset_consistent_fresh (ops : VectOps K) (V : List (Vect K) → Bool)
    (poly : PolygonShape K) (verts : List (Vect K)) (offset : Vect K) (xf : Transform K)
    (hInv : poly.LenInv) (hPerp : ∀ v, Dot (ops.Perp v) v = 0)
    (hRigid : xf.Rotation.C * xf.Rotation.C + xf.Rotation.S * xf.Rotation.S = 1) :
    ∃ p log box q, PolygonShape.SetVerts ops V poly (VertsArg.fresh verts) offset = some (p, log) ∧
      PolygonShape.update xf p = some (box, q) ∧
      p.NumVerts = (verts.length : Int) ∧
      (∀ (i : Nat), i < verts.length →
        ∃ v a, p.Verts.index i = some v ∧ p.Axes.index i = some a ∧ a.D = Dot a.N v) ∧
      (∀ (i : Nat), i < verts.length →
        ∃ tv ta, q.TVerts.index i = some tv ∧ q.TAxes.index i = some ta ∧
          ta.D = Dot ta.N tv) ∧
      (∀ (i : Nat) (vi vj : Vect K), verts[i]? = some vi →
        verts[(i + 1) % verts.length]? = some vj → vj ≠ vi →
        ∃ tw ta, q.TVerts.index ((i + 1) % verts.length) = some tw ∧
          q.TAxes.index i = some ta ∧ ta.D = Dot ta.N tw) := by
  obtain ⟨p, hp, h1, h2, h3, h4, h5, h6, h7⟩ := SetVerts_spec ops V poly verts offset hInv
  have hpInv : p.LenInv := by
    simp only [PolygonShape.LenInv, Slice.len, h1, h2, h3, h4, h5, and_self]
  refine ⟨p, _, _, _, hp, update_spec xf p hpInv, h1, ?_, ?_, ?_⟩
  · intro i hi
    have hj : (i + 1) % verts.length < verts.length := Nat.mod_lt _ (by omega)
    exact ⟨_, _, h6 i _ (List.getElem?_eq_getElem hi),
      h7 i _ _ (List.getElem?_eq_getElem hi) (List.getElem?_eq_getElem hj), rfl⟩
  · intro i hi
    have hj : (i + 1) % verts.length < verts.length := Nat.mod_lt _ (by omega)
    have e6 := h6 i _ (List.getElem?_eq_getElem hi)
    obtain ⟨a, ha, haD⟩ : ∃ a, p.Axes.elems[i]? = some a ∧
        a.D = Dot a.N (Add offset verts[i]) :=
      ⟨_, h7 i _ _ (List.getElem?_eq_getElem hi) (List.getElem?_eq_getElem hj), rfl⟩
    refine ⟨xf.TransformVect (Add offset verts[i]),
      ⟨xf.RotateVect a.N, Dot xf.Position (xf.RotateVect a.N) + a.D⟩, ?_, ?_, ?_⟩
    · simp only [Slice.index, List.getElem?_map, e6, Option.map_some']
    · simp only [Slice.index, List.getElem?_map, ha, Option.map_some']
    · simp only
      rw [world_offset xf _ _ hRigid, haD]
  · intro i vi vj hvi hvj _
    have e6 := h6 _ _ hvj
    obtain ⟨a, ha, haD, haE⟩ : ∃ a, p.Axes.elems[i]? = some a ∧
        a.D = Dot a.N (Add offset vi) ∧
        Dot a.N (Add offset vj) = Dot a.N (Add offset vi) :=
      ⟨_, h7 i _ _ hvi hvj, rfl, dot_edge_end _ _ _ (normalize_perp_orth ops hPerp _)⟩
    refine ⟨xf.TransformVect (Add offset vj),
      ⟨xf.RotateVect a.N, Dot xf.Position (xf.RotateVect a.N) + a.D⟩, ?_, ?_, ?_⟩
    · simp only [Slice.index, List.getElem?_map, e6, Option.map_some']
    · simp only [Slice.index, List.getElem?_map, ha, Option.map_some']
    · simp only
      rw [world_offset xf _ _ hRigid, haD, haE]

theorem containsVert_loop_world (xf : Transform K) (pt : Vect K)
    (hRigid : xf.Rotation.C * xf.Rotation.C + xf.Rotation.S * xf.Rotation.S = 1)
    (l : List (PolygonAxis K)) :
    PolygonShape.ContainsVert.loop (xf.TransformVect pt)
      (l.map (fun s => (⟨xf.RotateVect s.N,
        Dot xf.Position (xf.RotateVect s.N) + s.D⟩ : PolygonAxis K))) =
    PolygonShape.ContainsVert.loop pt l := by
  induction l with
  | nil => rfl
  | cons a t ih =>
    simp only [List.map, PolygonShape.ContainsVert.loop, ih, world_offset xf _ _ hRigid]
    have e : Dot xf.Position (xf.RotateVect a.N) + Dot a.N pt -
        (Dot xf.Position (xf.RotateVect a.N) + a.D) = Dot a.N pt - a.D := by ring
    rw [e]

/-- C20: for a polygon set by `SetVerts` (any argument that Go accepts, on a receiver
that satisfies the length invariant), a rigid transform `xf` (`C*C + S*S = 1`, any
position) and a point `pt`, `ContainsVert(TransformVect(xf, pt))` after `update(xf)` equals
`ContainsVert(pt)` after `update(identity)`, which is true exactly when
`Dot(Axes[i].N, pt) - Axes[i].D <= 0` for every local axis. -/
theorem C20_containment_commutes (ops : VectOps K) (V : List (Vect K) → Bool)
    (poly : PolygonShape K) (verts : VertsArg K) (offset : Vect K) (xf : Transform K)
    (pt : Vect K) (hInv : poly.LenInv) (hvalid : verts.ValidFor poly)
    (hRigid : xf.Rotation.C * xf.Rotation.C + xf.Rotation.S * xf.Rotation.S = 1) :
    ∃ p log box1 q1 box2 q2,
      PolygonShape.SetVerts ops V poly verts offset = some (p, log) ∧
      PolygonShape.update xf p = some (box1, q1) ∧
      PolygonShape.update Transform.identity p = some (box2, q2) ∧
      q1.ContainsVert (xf.TransformVect pt) = q2.ContainsVert pt ∧
      (q2.ContainsVert pt = true ↔
        ∀ (i : Nat) (ax : PolygonAxis K), p.Axes.index i = some ax →
          Dot ax.N pt - ax.D ≤ 0) := by
  obtain ⟨p, log, hp, hpInv, _⟩ := SetVerts_returns ops V poly verts offset hInv hvalid
  refine ⟨p, log, _, _, _, _, hp, update_spec xf p hpInv,
    update_spec Transform.identity p hpInv, ?_, ?_⟩
  · simp only [PolygonShape.ContainsVert, identity_axes,
      containsVert_loop_world xf pt hRigid]
  · simp only [PolygonShape.ContainsVert, identity_axes]
    rw [containsVert_loop_iff]
    constructor
    · intro h i ax hi
      exact h ax (List.mem_iff_getElem?.mpr ⟨i, hi⟩)
    · intro h ax hmem
      obtain ⟨i, hi⟩ := List.mem_iff_getElem?.mp hmem
      exact h i ax hi

/-- Witness of C20: the 3-4-5 triangle under a rotation of cosine `3/5` and sine `4/5`. -/
theorem C20_containment_commutes_witness :
    ((PolygonShape.zero : PolygonShape ℚ).LenInv ∧
      (VertsArg.fresh triangle345).ValidFor (PolygonShape.zero : PolygonShape ℚ) ∧
      turn345.Rotation.C * turn345.Rotation.C + turn345.Rotation.S * turn345.Rotation.S = 1) ∧
    ∃ p log box1 q1 box2 q2,
      PolygonShape.SetVerts opsQ (fun _ => true) PolygonShape.zero
        (VertsArg.fresh triangle345) ⟨1, 1⟩ = some (p, log) ∧
      PolygonShape.update turn345 p = some (box1, q1) ∧
      PolygonShape.update Transform.identity p = some (box2, q2) ∧
      q1.ContainsVert (turn345.TransformVect ⟨2, 4⟩) = q2.ContainsVert ⟨2, 4⟩ ∧
      (q2.ContainsVert ⟨2, 4⟩ = true ↔
        ∀ (i : Nat) (ax : PolygonAxis ℚ), p.Axes.index i = some ax →
          Dot ax.N ⟨2, 4⟩ - ax.D ≤ 0) :=
  have hRigid :
      turn345.Rotation.C * turn345.Rotation.C + turn345.Rotation.S * turn345.Rotation.S = 1 := by
    norm_num [turn345]
  ⟨⟨lenInv_zero, trivial, hRigid⟩,
    C20_containment_commutes opsQ (fun _ => true) PolygonShape.zero
      (VertsArg.fresh triangle345) ⟨1, 1⟩ turn345 ⟨2, 4⟩ lenInv_zero trivial hRigid⟩

/-! ### `SetVerts` called with the polygon's own vertex slice -/

omit [LinearOrderedField K] in
theorem read_shared_zero (n : Nat) (p : PolygonShape K) (i : Nat)
    (hlen : p.Verts.elems.length = n) :
    (VertsArg.shared 0 n : VertsArg K).read p i = p.Verts.elems[i]? := by
  have h : ((p.Verts.elems ++ p.Verts.spare).drop 0).take n = p.Verts.elems := by
    rw [List.drop_zero, ← hlen, List.take_left']
    rfl
  simp only [VertsArg.read, VertsArg.contents, h]

theorem SetVerts_loop_self (ops : VectOps K) (offset : Vect K) (old : List (Vect K))
    (poly0 : PolygonShape K) (hn : 2 ≤ old.length) (hv : poly0.Verts.elems = old)
    (ha : poly0.Axes.elems.length = old.length) :
    ∃ p, forLoop (PolygonShape.SetVerts.body ops (VertsArg.shared 0 old.length) offset
          old.length) 0 old.length poly0 = some p ∧
      p.TVerts = poly0.TVerts ∧ p.TAxes = poly0.TAxes ∧ p.NumVerts = poly0.NumVerts ∧
      p.Verts.elems.length = old.length ∧ p.Axes.elems.length = old.length ∧
      (∀ (i : Nat) (vi : Vect K), old[i]? = some vi →
        p.Verts.elems[i]? = some (Add offset vi)) ∧
      (∀ (i : Nat) (vi vj : Vect K), i + 1 < old.length → old[i]? = some vi →
        old[i + 1]? = some vj →
        p.Axes.elems[i]? = some
          ⟨Normalize ops (ops.Perp (Sub (Add offset vj) (Add offset vi))),
            Dot (Normalize ops (ops.Perp (Sub (Add offset vj) (Add offset vi))))
              (Add offset vi)⟩) ∧
      (∀ (vl v0 : Vect K), old[old.length - 1]? = some vl → old[0]? = some v0 →
        p.Axes.elems[old.length - 1]? = some
          ⟨Normalize ops (ops.Perp (Sub (Add offset (Add offset v0)) (Add offset vl))),
            Dot (Normalize ops (ops.Perp (Sub (Add offset (Add offset v0)) (Add offset vl))))
              (Add offset vl)⟩) := by
  obtain ⟨p, hp, h1, h2, h3, h4, h5, h6, _, h8, h9⟩ := forLoop_rule
    (PolygonShape.SetVerts.body ops (VertsArg.shared 0 old.length) offset old.length)
    (fun k p =>
      p.TVerts = poly0.TVerts ∧ p.TAxes = poly0.TAxes ∧ p.NumVerts = poly0.NumVerts ∧
      p.Verts.elems.length = old.length ∧ p.Axes.elems.length = old.length ∧
      (∀ (i : Nat) (vi : Vect K), i < k → old[i]? = some vi →
        p.Verts.elems[i]? = some (Add offset vi)) ∧
      (∀ (i : Nat), k ≤ i → p.Verts.elems[i]? = old[i]?) ∧
      (∀ (i : Nat) (vi vj : Vect K), i < k → i + 1 < old.length → old[i]? = some vi →
        old[i + 1]? = some vj →
        p.Axes.elems[i]? = some
          ⟨Normalize ops (ops.Perp (Sub (Add offset vj) (Add offset vi))),
            Dot (Normalize ops (ops.Perp (Sub (Add offset vj) (Add offset vi))))
              (Add offset vi)⟩) ∧
      (∀ (vl v0 : Vect K), old.length ≤ k → old[old.length - 1]? = some vl →
        old[0]? = some v0 →
        p.Axes.elems[old.length - 1]? = some
          ⟨Normalize ops (ops.Perp (Sub (Add offset (Add offset v0)) (Add offset vl))),
            Dot (Normalize ops (ops.Perp (Sub (Add offset (Add offset v0)) (Add offset vl))))
              (Add offset vl)⟩))
    0 old.length poly0 (Nat.zero_le _)
    ⟨rfl, rfl, rfl, by rw [hv], ha, fun i _ h => absurd h (Nat.not_lt_zero i),
      fun i _ => by rw [hv], fun i _ _ h => absurd h (Nat.not_lt_zero i),
      fun _ _ h => absurd h (by omega)⟩
    (by
      intro k p _ hk ⟨h1, h2, h3, h4, h5, h6, h7, h8, h9⟩
      have ek : old[k]? = some old[k] := List.getElem?_eq_getElem hk
      have hi : (VertsArg.shared 0 old.length : VertsArg K).read p k = some old[k] := by
        rw [read_shared_zero _ p k h4, h7 k (Nat.le_refl _), ek]
      by_cases hlast : k + 1 = old.length
      · have e0 : old[0]? = some old[0] := List.getElem?_eq_getElem (by omega)
        have hmod : (k + 1) % old.length = 0 := by rw [hlast, Nat.mod_self]
        have hj : (VertsArg.shared 0 old.length : VertsArg K).read p
            ((k + 1) % old.length) = some (Add offset old[0]) := by
          rw [read_shared_zero _ p _ h4, hmod]
          exact h6 0 _ (by omega) e0
        refine ⟨_, SetVerts_body_eq ops _ offset old.length k p _ _ hi hj (by omega)
          (by omega), h1, h2, h3, by simpa using h4, by simpa using h5, ?_, ?_, ?_, ?_⟩
        · intro i vi hik hvi
          by_cases hik2 : i = k
          · subst hik2
            rw [ek] at hvi
            cases hvi
            simp [List.getElem?_set, h4, hk]
          · simp only [List.getElem?_set, if_neg (Ne.symm hik2)]
            exact h6 i vi (by omega) hvi
        · intro i hik
          have hne : k ≠ i := by omega
          simp only [List.getElem?_set, if_neg hne]
          exact h7 i (by omega)
        · intro i vi vj hik hi1 hvi hvj
          have hne : k ≠ i := by omega
          simp only [List.getElem?_set, if_neg hne]
          exact h8 i vi vj (by omega) hi1 hvi hvj
        · intro vl v0 _ hvl hv0
          have hidx : old.length - 1 = k := by omega
          rw [hidx] at hvl ⊢
          rw [ek] at hvl
          rw [e0] at hv0
          cases hvl
          cases hv0
          simp [List.getElem?_set, h5, hk]
      · have hk1 : k + 1 < old.length := by omega
        have ek1 : old[k + 1]? = some old[k + 1] := List.getElem?_eq_getElem hk1
        have hmod : (k + 1) % old.length = k + 1 := Nat.mod_eq_of_lt hk1
        have hj : (VertsArg.shared 0 old.length : VertsArg K).read p
            ((k + 1) % old.length) = some old[k + 1] := by
          rw [read_shared_zero _ p _ h4, hmod, h7 (k + 1) (by omega), ek1]
        refine ⟨_, SetVerts_body_eq ops _ offset old.length k p _ _ hi hj (by omega)
          (by omega), h1, h2, h3, by simpa using h4, by simpa using h5, ?_, ?_, ?_, ?_⟩
        · intro i vi hik hvi
          by_cases hik2 : i = k
          · subst hik2
            rw [ek] at hvi
            cases hvi
            simp [List.getElem?_set, h4, hk]
          · simp only [List.getElem?_set, if_neg (Ne.symm hik2)]
            exact h6 i vi (by omega) hvi
        · intro i hik
          have hne : k ≠ i := by omega
          simp only [List.getElem?_set, if_neg hne]
          exact h7 i (by omega)
        · intro i vi vj hik hi1 hvi hvj
          by_cases hik2 : i = k
          · subst hik2
            rw [ek] at hvi
            rw [ek1] at hvj
            cases hvi
            cases hvj
            simp [List.getElem?_set, h5, hk]
          · simp only [List.getElem?_set, if_neg (Ne.symm hik2)]
            exact h8 i vi vj (by omega) hi1 hvi hvj
        · intro vl v0 hle _ _
          exact absurd hle (by omega))
  refine ⟨p, hp, h1, h2, h3, h4, h5, ?_, ?_, ?_⟩
  · intro i vi hvi
    have hi : i < old.length := by
      by_contra hc
      rw [List.getElem?_eq_none (by omega)] at hvi
      cases hvi
    exact h6 i vi hi hvi
  · intro i vi vj hi1 hvi hvj
    exact h8 i vi vj (by omega) hi1 hvi hvj
  · intro vl v0 hvl hv0
    exact h9 vl v0 (Nat.le_refl _) hvl hv0

/-- The call `poly.SetVerts(poly.Verts, offset)` on a polygon with at least two vertices:
every vertex is moved by `offset` and every axis but the last is that of its edge, but the
last iteration reads `verts[0]` after `poly.Verts[0]` was written, so the last axis is
computed from the edge that ends at `offset + (offset + Verts[0])`. -/
theorem SetVerts_self_spec (ops : VectOps K) (V : List (Vect K) → Bool)
    (poly : PolygonShape K) (offset : Vect K) (hInv : poly.LenInv)
    (hn : 2 ≤ poly.Verts.elems.length) :
    ∃ p log, PolygonShape.SetVerts ops V poly (VertsArg.shared 0 poly.Verts.len) offset =
        some (p, log) ∧
      p.LenInv ∧ p.Verts.elems = poly.Verts.elems.map (Add offset) ∧
      (∀ (i : Nat) (vi vj : Vect K), i + 1 < poly.Verts.elems.length →
        poly.Verts.elems[i]? = some vi → poly.Verts.elems[i + 1]? = some vj →
        p.Axes.elems[i]? = some
          ⟨Normalize ops (ops.Perp (Sub (Add offset vj) (Add offset vi))),
            Dot (Normalize ops (ops.Perp (Sub (Add offset vj) (Add offset vi))))
              (Add offset vi)⟩) ∧
      (∀ (vl v0 : Vect K), poly.Verts.elems[poly.Verts.elems.length - 1]? = some vl →
        poly.Verts.elems[0]? = some v0 →
        p.Axes.elems[poly.Verts.elems.length - 1]? = some
          ⟨Normalize ops (ops.Perp (Sub (Add offset (Add offset v0)) (Add offset vl))),
            Dot (Normalize ops (ops.Perp (Sub (Add offset (Add offset v0)) (Add offset vl))))
              (Add offset vl)⟩) := by
  obtain ⟨i1, i2, i3, i4⟩ := hInv
  simp only [Slice.len] at i1 i2 i3 i4
  have l1 : poly.Verts.elems.length ≤ poly.Verts.elems.length := Nat.le_refl _
  have l2 : poly.Verts.elems.length ≤ poly.TVerts.elems.length := by omega
  have l3 : poly.Verts.elems.length ≤ poly.Axes.elems.length := by omega
  have l4 : poly.Verts.elems.length ≤ poly.TAxes.elems.length := by omega
  have hnot : ¬ poly.Verts.elems.length < poly.Verts.elems.length := Nat.lt_irrefl _
  obtain ⟨p, hp, h1, h2, h3, h4, h5, h6, h7, h8⟩ := SetVerts_loop_self ops offset
    poly.Verts.elems
    { poly with
        NumVerts := (poly.Verts.elems.length : Int)
        Verts := ⟨poly.Verts.elems.take poly.Verts.elems.length,
          poly.Verts.elems.drop poly.Verts.elems.length ++ poly.Verts.spare⟩
        TVerts := ⟨poly.TVerts.elems.take poly.Verts.elems.length,
          poly.TVerts.elems.drop poly.Verts.elems.length ++ poly.TVerts.spare⟩
        Axes := ⟨poly.Axes.elems.take poly.Verts.elems.length,
          poly.Axes.elems.drop poly.Verts.elems.length ++ poly.Axes.spare⟩
        TAxes := ⟨poly.TAxes.elems.take poly.Verts.elems.length,
          poly.TAxes.elems.drop poly.Verts.elems.length ++ poly.TAxes.spare⟩ }
    hn (by simp) (by simp [l3])
  refine ⟨p, if V (((poly.Verts.elems ++ poly.Verts.spare).drop 0).take
      poly.Verts.elems.length) == false then ["Warning: vertices not valid"] else [],
    ?_, ?_, ?_, h7, h8⟩
  · simp only [PolygonShape.SetVerts, VertsArg.len, VertsArg.contents, Slice.len,
      if_neg hnot, Option.bind_eq_bind, Option.pure_def, Option.some_bind,
      Slice.upTo_eq _ _ l1, Slice.upTo_eq _ _ l2, Slice.upTo_eq _ _ l3,
      Slice.upTo_eq _ _ l4, hp]
  · simp only [PolygonShape.LenInv, Slice.len, h1, h2, h3, h4, h5, List.length_take,
      min_eq_left l2, min_eq_left l4, and_self]
  · apply List.ext_getElem?
    intro i
    by_cases hi : i < poly.Verts.elems.length
    · rw [h6 i _ (List.getElem?_eq_getElem hi), List.getElem?_map,
        List.getElem?_eq_getElem hi]
      rfl
    · rw [List.getElem?_eq_none (by omega), List.getElem?_eq_none (by simp; omega)]

theorem sqrtQ_four : sqrtQ 4 = 2 := by
  have h4 : Nat.sqrt 4 = 2 := by
    rw [show (4 : ℕ) = 2 * 2 from rfl]
    exact Nat.sqrt_eq 2
  simp [sqrtQ, h4]

theorem newPolygon_unitSquare :
    ∃ p0 log0, NewPolygon opsQ (fun _ => true) (some unitSquare) ⟨0, 0⟩ =
        some (some ⟨ShapeClass.polygon p0⟩, log0) ∧
      p0.LenInv ∧ p0.Verts.elems = [⟨0, 0⟩, ⟨1, 0⟩, ⟨1, 1⟩, ⟨0, 1⟩] := by
  obtain ⟨p0, hp0, hInv0, _, hvs, _⟩ :=
    SetVerts_closed opsQ (fun _ => true) PolygonShape.zero unitSquare ⟨0, 0⟩ lenInv_zero
  refine ⟨p0, [], ?_, hInv0, ?_⟩
  · simp [NewPolygon, hp0]
  · rw [hvs]
    simp [unitSquare, Add]

/-- C1, the code at the failing input: the unit square is built by `NewPolygon` with offset
`(0,0)` and then moved by `poly.SetVerts(poly.Verts, (0,3))`.  The call returns with
`Verts = (0,3), (1,3), (1,4), (0,4)`, but the last axis is `Axes[3] = {N: (-1,0), D: 0}`,
while `Normalize(Perp(Verts[0] - Verts[3]))` is `(1,0)` (here with `Perp` the
counter-clockwise quarter turn): the last iteration reads `verts[0]` after `Verts[0]` was
overwritten. -/
theorem C1_SetVerts_own_slice_last_axis :
    ∃ p0 log0 p log,
      NewPolygon opsQ (fun _ => true) (some unitSquare) ⟨0, 0⟩ =
        some (some ⟨ShapeClass.polygon p0⟩, log0) ∧
      PolygonShape.SetVerts opsQ (fun _ => true) p0 (VertsArg.shared 0 p0.Verts.len) ⟨0, 3⟩ =
        some (p, log) ∧
      p.Verts.elems = [⟨0, 3⟩, ⟨1, 3⟩, ⟨1, 4⟩, ⟨0, 4⟩] ∧
      p.Axes.index 3 = some ⟨⟨-1, 0⟩, 0⟩ ∧
      Normalize opsQ (opsQ.Perp (Sub ⟨0, 3⟩ ⟨0, 4⟩)) = ⟨1, 0⟩ := by
  obtain ⟨p0, log0, hnew, hInv0, hvs⟩ := newPolygon_unitSquare
  obtain ⟨p, log, hp, _, hpv, _, hlast⟩ :=
    SetVerts_self_spec opsQ (fun _ => true) p0 ⟨0, 3⟩ hInv0 (by rw [hvs]; decide)
  have h3 := hlast ⟨0, 1⟩ ⟨0, 0⟩ (by rw [hvs]; rfl) (by rw [hvs]; rfl)
  refine ⟨p0, log0, p, log, hnew, hp, ?_, ?_, ?_⟩
  · rw [hpv, hvs]
    norm_num [Add]
  · rw [hvs] at h3
    simp only [Slice.index]
    rw [show (3 : Nat) = [(⟨0, 0⟩ : Vect ℚ), ⟨1, 0⟩, ⟨1, 1⟩, ⟨0, 1⟩].length - 1 from rfl, h3]
    norm_num [Add, Sub, Dot, Normalize, opsQ, perpLeft, sqrtQ_four]
  · norm_num [Sub, Dot, Normalize, opsQ, perpLeft, sqrtQ_one]

/-- C18, the code at the failing input: the unit square is built by `NewPolygon` with
offset `(0,0)`, moved by `poly.SetVerts(poly.Verts, (1,1))` and updated with the identity
transform.  The world vertices `(1,1), (2,1), (2,2), (1,2)` are distinct, `TAxes[3].D` is
`2`, but the end vertex `TVerts[0] = (1,1)` of the last edge has
`Dot(TAxes[3].N, TVerts[0]) = 1`. -/
theorem C18_own_slice_edge_end_off_line :
    ∃ p0 log0 p log box q,
      NewPolygon opsQ (fun _ => true) (some unitSquare) ⟨0, 0⟩ =
        some (some ⟨ShapeClass.polygon p0⟩, log0) ∧
      PolygonShape.SetVerts opsQ (fun _ => true) p0 (VertsArg.shared 0 p0.Verts.len) ⟨1, 1⟩ =
        some (p, log) ∧
      PolygonShape.update Transform.identity p = some (box, q) ∧
      q.TVerts.elems = [⟨1, 1⟩, ⟨2, 1⟩, ⟨2, 2⟩, ⟨1, 2⟩] ∧
      ∃ ta tv, q.TAxes.index 3 = some ta ∧ q.TVerts.index ((3 + 1) % 4) = some tv ∧
        ta.D = 2 ∧ Dot ta.N tv = 1 := by
  obtain ⟨p0, log0, hnew, hInv0, hvs⟩ := newPolygon_unitSquare
  obtain ⟨p, log, hp, hpInv, hpv, _, hlast⟩ :=
    SetVerts_self_spec opsQ (fun _ => true) p0 ⟨1, 1⟩ hInv0 (by rw [hvs]; decide)
  have h3 := hlast ⟨0, 1⟩ ⟨0, 0⟩ (by rw [hvs]; rfl) (by rw [hvs]; rfl)
  rw [hvs] at h3 hpv
  have hv : p.Verts.elems = [⟨1, 1⟩, ⟨2, 1⟩, ⟨2, 2⟩, ⟨1, 2⟩] := by
    rw [hpv]
    norm_num [Add]
  have ha : p.Axes.elems[3]? = some ⟨⟨0, 1⟩, 2⟩ := by
    rw [show (3 : Nat) = [(⟨0, 0⟩ : Vect ℚ), ⟨1, 0⟩, ⟨1, 1⟩, ⟨0, 1⟩].length - 1 from rfl, h3]
    norm_num [Add, Sub, Dot, Normalize, opsQ, perpLeft, sqrtQ_one]
  have hmapv : p.Verts.elems.map Transform.identity.TransformVect =
      [⟨1, 1⟩, ⟨2, 1⟩, ⟨2, 2⟩, ⟨1, 2⟩] := by
    have h : (Transform.identity : Transform ℚ).TransformVect = id := by
      funext v
      exact transformVect_identity v
    rw [h, List.map_id, hv]
  refine ⟨p0, log0, p, log, _, _, hnew, hp, update_spec Transform.identity p hpInv, ?_,
    ⟨⟨0, 1⟩, 2⟩, ⟨1, 1⟩, ?_, ?_, rfl, ?_⟩
  · simp only [hmapv]
  · simp only [Slice.index, identity_axes, ha]
  · simp only [Slice.index, hmapv]
    rfl
  · norm_num [Dot]

end PolygonLemmas

end Collision
